import Mathlib

/-!
Verification of the configuration installer in `.local/bin/setup-nvim.ts`.

The script is a linear sequence of filesystem writes and subprocess probes.
We embed the filesystem as an association list from paths (component lists)
to nodes (files with string content, or directories), and each filesystem
primitive the script uses (`exists`, `Deno.remove {recursive}`, `Deno.rename`,
`ensureDir`, `Deno.writeTextFile`) as an explicit state-passing function
returning the new filesystem together with an optional error (a raised and
propagating exception).  External effects that can fail for reasons outside
the model (permissions, disk space) are represented by an oracle predicate
on paths saying whether a write succeeds.  The static content payload
(the Lua configuration texts and the sample-project texts) is out of scope
per the specification and is carried as opaque string data in the
`ConfigFile` entries and `SampleTexts` parameters.
-/

/-- A filesystem path, as its list of components
(the result of splitting on the separator). -/
abbrev FPath := List String

/-- A filesystem node: a regular file with its textual content,
or a directory. -/
inductive Node where
  | file (content : String)
  | dir
deriving DecidableEq, Repr

/-- A filesystem: an association list from absolute paths to nodes.
An entry for a directory is just its path mapped to `Node.dir`. -/
abbrev FS := List (FPath × Node)

/-- Look up the node at a path (first matching entry). -/
def FS.lookup (fs : FS) (p : FPath) : Option Node :=
  (fs.find? (fun e => e.1 == p)).map (fun e => e.2)

/-- `exists` from the Deno std fs module: does anything (file or
directory) live at this path? -/
def existsPath (fs : FS) (p : FPath) : Bool :=
  (FS.lookup fs p).isSome

/-- The subtree rooted at `p`: all entries at or below `p`, with their
paths made relative to `p`.  Used to state what a directory contains. -/
def subtree (fs : FS) (p : FPath) : FS :=
  (fs.filter (fun e => p.isPrefixOf e.1)).map (fun e => (e.1.drop p.length, e.2))

/-- Create or overwrite the entry at path `p` with node `n`
(replacing in place when present, appending when absent). -/
def setEntry (fs : FS) (p : FPath) (n : Node) : FS :=
  match FS.lookup fs p with
  | some _ => fs.map (fun e => if e.1 = p then (p, n) else e)
  | none => fs ++ [(p, n)]

/-- `Deno.remove(path, recursive: true)`: delete the entry at `p` and
everything below it.  Errors when nothing exists at `p`. -/
def removeRecursive (fs : FS) (p : FPath) : FS × Option String :=
  if existsPath fs p then
    (fs.filter (fun e => !(p.isPrefixOf e.1)), none)
  else (fs, some ("remove: no such file or directory"))

/-- `Deno.rename(src, dst)`: atomically move the tree at `src` to `dst`.
Errors when the source does not exist or when anything already lives at
or below the destination (the script guarantees the destination was
removed beforehand). -/
def renameFs (fs : FS) (src dst : FPath) : FS × Option String :=
  if !(existsPath fs src) then (fs, some ("rename: no such file or directory"))
  else if !(subtree fs dst).isEmpty then (fs, some ("rename: destination exists"))
  else
    (fs.map (fun e =>
      if src.isPrefixOf e.1 then (dst ++ e.1.drop src.length, e.2) else e), none)

/-- Create each listed directory in order, skipping the ones that already
exist and stopping with an error when a regular file is in the way. -/
def mkdirs (fs : FS) (ps : List FPath) : FS × Option String :=
  match ps with
  | [] => (fs, none)
  | q :: rest =>
    match FS.lookup fs q with
    | some (Node.file _) => (fs, some ("ensureDir: path exists and is a file"))
    | some Node.dir => mkdirs fs rest
    | none => mkdirs (setEntry fs q Node.dir) rest

/-- The chain of nonempty prefixes of `d`, shortest first. -/
def dirChain (d : FPath) : List FPath :=
  (List.range d.length).map (fun i => d.take (i + 1))

/-- `ensureDir(d)` from the Deno std fs module: create `d` and every
missing ancestor, succeeding silently when already present. -/
def ensureDir (fs : FS) (d : FPath) : FS × Option String :=
  mkdirs fs (dirChain d)

/-- `Deno.writeTextFile(p, c)`: write `c` to the file at `p`, overwriting
without confirmation.  The write oracle `ora` models environment-caused
I/O failures (permission denied, disk full); the write also errors when
the parent directory is missing or when a directory sits at `p`. -/
def writeTextFile (ora : FPath → Bool) (fs : FS) (p : FPath) (c : String) :
    FS × Option String :=
  if !(ora p) then (fs, some ("write: i/o error"))
  else if !(p.dropLast.isEmpty || FS.lookup fs p.dropLast == some Node.dir) then
    (fs, some ("write: no such file or directory"))
  else
    match FS.lookup fs p with
    | some Node.dir => (fs, some ("write: is a directory"))
    | _ => (setEntry fs p (Node.file c), none)

/-- Sequencing of two fallible filesystem steps: a raised error aborts
the continuation and propagates (the `await`/`throw` discipline of the
script). -/
def andThen (r : FS × Option String) (k : FS → FS × Option String) :
    FS × Option String :=
  match r with
  | (fs, some e) => (fs, some e)
  | (fs, none) => k fs

/-- `this.configDir = join(homeDir, ".config", "nvim")`. -/
def configDir (home : FPath) : FPath := home ++ [".config", "nvim"]

/-- `this.backupDir = join(homeDir, ".config", "nvim.backup")`. -/
def backupDir (home : FPath) : FPath := home ++ [".config", "nvim.backup"]

/-- A `ConfigFile` entry of the script: relative destination path,
literal content, human-readable description. -/
structure ConfigFile where
  path : String
  content : String
  description : String
deriving DecidableEq, Repr

/-- Split a list of characters on the path separator. -/
def splitComponents (cs : List Char) : List (List Char) :=
  match cs with
  | [] => [[]]
  | c :: rest =>
    match splitComponents rest with
    | [] => [[c]]
    | h :: t => if c = '/' then [] :: h :: t else (c :: h) :: t

/-- Split a path string on the separator, as `join` composes components
(the same result as splitting the string on the single character
separator). -/
def splitPath (s : String) : FPath :=
  (splitComponents s.toList).map (fun cs => String.mk cs)

/-- `join(this.configDir, configFile.path)`. -/
def fullPath (home : FPath) (f : ConfigFile) : FPath :=
  configDir home ++ splitPath f.path

/-- One iteration of the loop in `createConfigFiles`: derive the full
destination path, ensure its parent directory chain exists
(`dir = fullPath.substring(0, fullPath.lastIndexOf("/"))`), then write
the literal content. -/
def writeOne (ora : FPath → Bool) (home : FPath) (fs : FS) (f : ConfigFile) :
    FS × Option String :=
  andThen (ensureDir fs (fullPath home f).dropLast)
    (fun fs1 => writeTextFile ora fs1 (fullPath home f) f.content)

/-- The loop of `createConfigFiles` over the entry list, in input order,
a raised error aborting the remaining entries. -/
def writeAll (ora : FPath → Bool) (home : FPath) (fs : FS) (l : List ConfigFile) :
    FS × Option String :=
  match l with
  | [] => (fs, none)
  | f :: rest =>
    andThen (writeOne ora home fs f) (fun fs1 => writeAll ora home fs1 rest)

/-- `NeovimSetup.createConfigFiles`: materialize every entry, then create
the undo directory `join(this.configDir, "undo")`. -/
def createConfigFiles (ora : FPath → Bool) (home : FPath)
    (files : List ConfigFile) (fs : FS) : FS × Option String :=
  andThen (writeAll ora home fs files)
    (fun fs1 => ensureDir fs1 (configDir home ++ ["undo"]))

/-- `NeovimSetup.backupExistingConfig`: when the config directory exists,
remove any pre-existing backup recursively, then rename the config
directory to the backup path; otherwise do nothing. -/
def backupExistingConfig (home : FPath) (fs : FS) : FS × Option String :=
  if existsPath fs (configDir home) then
    andThen
      (if existsPath fs (backupDir home) then removeRecursive fs (backupDir home)
       else (fs, none))
      (fun fs1 => renameFs fs1 (configDir home) (backupDir home))
  else (fs, none)

/-- The static content payload of the sample project (`deno.json`,
`main.ts`, `main_test.ts`); out of scope per the specification, carried
as opaque data. -/
structure SampleTexts where
  denoJson : String
  mainTs : String
  mainTest : String
deriving DecidableEq, Repr

/-- `NeovimSetup.createSampleDenoProject`: create
`join(Deno.cwd(), "deno-sample-project")` and write the three fixed
files into it. -/
def createSampleDenoProject (ora : FPath → Bool) (cwd : FPath)
    (st : SampleTexts) (fs : FS) : FS × Option String :=
  andThen (ensureDir fs (cwd ++ ["deno-sample-project"])) (fun fs1 =>
  andThen (writeTextFile ora fs1 (cwd ++ ["deno-sample-project", "deno.json"]) st.denoJson) (fun fs2 =>
  andThen (writeTextFile ora fs2 (cwd ++ ["deno-sample-project", "main.ts"]) st.mainTs) (fun fs3 =>
  writeTextFile ora fs3 (cwd ++ ["deno-sample-project", "main_test.ts"]) st.mainTest)))

/-- Outcome of probing one external tool with its version arguments:
whether the subprocess could be launched at all, and whether it reported
a successful exit condition. -/
structure ToolProbe where
  launches : Bool
  succeeds : Bool
deriving DecidableEq, Repr

/-- The environment's answers for the three probed tools
(`nvim --version`, `deno --version`, `git --version`). -/
structure ToolEnv where
  nvim : ToolProbe
  deno : ToolProbe
  git : ToolProbe
deriving DecidableEq, Repr

/-- Whether one probe counts as success: the spawn did not throw and the
subprocess exited successfully (either failure mode lands in the same
`catch` and raises the same message). -/
def probeOk (t : ToolProbe) : Bool := t.launches && t.succeeds

/-- `NeovimSetup.checkPrerequisites`: probe nvim, deno and git in order,
raising a message naming the first missing tool.  No filesystem access. -/
def checkPrerequisites (tools : ToolEnv) : Option String :=
  if !(probeOk tools.nvim) then some ("❌ Neovim is not installed or not in PATH")
  else if !(probeOk tools.deno) then some ("❌ Deno is not installed or not in PATH")
  else if !(probeOk tools.git) then some ("❌ Git is not installed or not in PATH")
  else none

/-- `NeovimSetup.run`: prerequisites, backup, `ensureDir(this.configDir)`,
config files, then the sample project (skipped when the `--no-sample`
override replaced the method).  The catch block converts any raised
error into a reported failure (`some` message here) followed by
`Deno.exit(1)`; `printUsageInstructions` only prints and is omitted. -/
def NeovimSetup.run (tools : ToolEnv) (ora : FPath → Bool) (home cwd : FPath)
    (files : List ConfigFile) (st : SampleTexts) (noSample : Bool) (fs : FS) :
    FS × Option String :=
  match checkPrerequisites tools with
  | some e => (fs, some e)
  | none =>
    andThen (backupExistingConfig home fs) (fun fs1 =>
    andThen (ensureDir fs1 (configDir home)) (fun fs2 =>
    andThen (createConfigFiles ora home files fs2) (fun fs3 =>
    if noSample then (fs3, none)
    else createSampleDenoProject ora cwd st fs3)))

/-- The two environment variables the constructor consults. -/
structure Env where
  home : Option String
  userprofile : Option String
deriving DecidableEq, Repr

/-- JavaScript `a || b` over possibly-absent strings: the empty string is
falsy, so it falls through to `b`. -/
def jsOr (a b : Option String) : Option String :=
  match a with
  | some s => if s = "" then b else some s
  | none => b

/-- The constructor's home-directory resolution:
`Deno.env.get("HOME") || Deno.env.get("USERPROFILE")`, with
`if (!homeDir) throw` rejecting an absent or empty result. -/
def resolveHome (env : Env) : Option String :=
  match jsOr env.home env.userprofile with
  | some s => if s = "" then none else some s
  | none => none

/-- How the process ends, as observable from `main`:
`helpExit` — the `--help`/`-h` branch printed the usage text and
returned (process exits 0);
`dryRunExit` — the `--dry-run` branch printed the planned actions and
returned (process exits 0);
`completed` — `run()` finished normally (process exits 0);
`caughtExit` — `run()`'s catch printed the formatted message and called
`Deno.exit(1)`;
`uncaught` — an error escaped `main` itself; the runtime's default
handler terminates the process with a non-zero status, without the
script catching or formatting it. -/
inductive Outcome where
  | helpExit
  | dryRunExit
  | completed
  | caughtExit (msg : String)
  | uncaught (msg : String)
deriving DecidableEq, Repr

/-- Process exit status for each outcome (an uncaught error makes the
Deno runtime exit with status 1). -/
def Outcome.exitCode : Outcome → Nat
  | Outcome.helpExit => 0
  | Outcome.dryRunExit => 0
  | Outcome.completed => 0
  | Outcome.caughtExit _ => 1
  | Outcome.uncaught _ => 1

/-- Whether the outcome is the catch-and-format path of `run()`. -/
def Outcome.isCaughtExit : Outcome → Bool
  | Outcome.caughtExit _ => true
  | _ => false

/-- `main()`: the `--help`/`-h` branch returns before anything else; the
`--dry-run` branch returns next; otherwise `new NeovimSetup()` runs
(its throw is NOT inside any try/catch and escapes `main` uncaught),
the `--no-sample` override is applied, and `setup.run()` executes with
its internal catch. -/
def mainFn (env : Env) (tools : ToolEnv) (ora : FPath → Bool) (cwd : FPath)
    (files : List ConfigFile) (st : SampleTexts) (args : List String) (fs : FS) :
    FS × Outcome :=
  if args.contains ("--help") || args.contains ("-h") then (fs, Outcome.helpExit)
  else if args.contains ("--dry-run") then (fs, Outcome.dryRunExit)
  else
    match resolveHome env with
    | none => (fs, Outcome.uncaught ("Could not determine home directory"))
    | some homeStr =>
      match NeovimSetup.run tools ora (splitPath homeStr) cwd files st
          (args.contains ("--no-sample")) fs with
      | (fs1, some e) => (fs1, Outcome.caughtExit ("❌ Setup failed: " ++ e))
      | (fs1, none) => (fs1, Outcome.completed)


/-! ### Basic facts about paths -/

theorem isPrefixOf_append_same (n l m : FPath) :
    (n ++ l).isPrefixOf (n ++ m) = l.isPrefixOf m := by
  induction n with
  | nil => rfl
  | cons a t ih => simpa [List.isPrefixOf] using ih

theorem configDir_ne_backupDir (home : FPath) : configDir home ≠ backupDir home := by
  intro h
  have := List.append_cancel_left (h : home ++ [".config", "nvim"] = home ++ [".config", "nvim.backup"])
  simp at this

theorem length_backupDir_eq (home : FPath) :
    (backupDir home).length = (configDir home).length := by
  simp [configDir, backupDir]

theorem not_backupDir_prefix_configDir_append (home r : FPath) :
    ¬ (backupDir home <+: configDir home ++ r) := by
  intro h
  have hlen : (backupDir home).length ≤ (configDir home).length :=
    (length_backupDir_eq home).le
  have htake : backupDir home = (configDir home ++ r).take (backupDir home).length :=
    List.prefix_iff_eq_take.mp h
  rw [List.take_append_of_le_length hlen] at htake
  have hpre : backupDir home <+: configDir home := by
    rw [htake]; exact List.take_prefix _ _
  have : backupDir home = configDir home :=
    hpre.eq_of_length (by rw [length_backupDir_eq])
  exact configDir_ne_backupDir home this.symm

theorem not_configDir_prefix_backupDir_append (home r : FPath) :
    ¬ (configDir home <+: backupDir home ++ r) := by
  intro h
  have hlen : (configDir home).length ≤ (backupDir home).length :=
    (length_backupDir_eq home).ge
  have htake : configDir home = (backupDir home ++ r).take (configDir home).length :=
    List.prefix_iff_eq_take.mp h
  rw [List.take_append_of_le_length hlen] at htake
  have hpre : configDir home <+: backupDir home := by
    rw [htake]; exact List.take_prefix _ _
  have : configDir home = backupDir home :=
    hpre.eq_of_length (by rw [length_backupDir_eq])
  exact configDir_ne_backupDir home this

theorem eq_iff_drop_eq {p a b : FPath} (ha : p <+: a) (hb : p <+: b) :
    a = b ↔ a.drop p.length = b.drop p.length := by
  constructor
  · intro h; rw [h]
  · intro h
    have ha' := List.prefix_iff_eq_append.mp ha
    have hb' := List.prefix_iff_eq_append.mp hb
    rw [← ha', ← hb', h]

/-! ### Lookup lemmas -/

theorem FS.lookup_nil (p : FPath) : FS.lookup [] p = none := rfl

theorem FS.lookup_cons (e : FPath × Node) (fs : FS) (p : FPath) :
    FS.lookup (e :: fs) p = if e.1 = p then some e.2 else FS.lookup fs p := by
  by_cases h : e.1 = p <;> simp [FS.lookup, List.find?_cons, h]

theorem FS.lookup_append_single (fs : FS) (q : FPath) (n : Node) (p : FPath) :
    FS.lookup (fs ++ [(q, n)]) p =
      match FS.lookup fs p with
      | some m => some m
      | none => if q = p then some n else none := by
  induction fs with
  | nil => simp [FS.lookup_cons, FS.lookup_nil]
  | cons e t ih =>
    by_cases h : e.1 = p <;> simp [FS.lookup_cons, h, ih]

theorem lookup_map_replace (fs : FS) (q : FPath) (n : Node) (r : FPath)
    (h : r ≠ q) :
    FS.lookup (fs.map (fun e => if e.1 = q then (q, n) else e)) r =
      FS.lookup fs r := by
  induction fs with
  | nil => rfl
  | cons e t ih =>
    by_cases he : e.1 = q
    · have h2 : ¬ q = r := fun hq => h hq.symm
      simp [FS.lookup_cons, he, h2, ih]
    · simp [FS.lookup_cons, he, ih]

theorem lookup_map_replace_self (fs : FS) (q : FPath) (n : Node) (m : Node)
    (hl : FS.lookup fs q = some m) :
    FS.lookup (fs.map (fun e => if e.1 = q then (q, n) else e)) q = some n := by
  induction fs with
  | nil => simp [FS.lookup_nil] at hl
  | cons e t ih =>
    rw [FS.lookup_cons] at hl
    by_cases he : e.1 = q
    · simp [FS.lookup_cons, he]
    · simp only [he, if_false] at hl
      simp [FS.lookup_cons, he, ih hl]

theorem lookup_setEntry_self (fs : FS) (q : FPath) (n : Node) :
    FS.lookup (setEntry fs q n) q = some n := by
  unfold setEntry
  cases hl : FS.lookup fs q with
  | none => simp [FS.lookup_append_single, hl]
  | some m => exact lookup_map_replace_self fs q n m hl

theorem lookup_setEntry_ne (fs : FS) (q : FPath) (n : Node) (r : FPath)
    (h : r ≠ q) : FS.lookup (setEntry fs q n) r = FS.lookup fs r := by
  unfold setEntry
  cases hl : FS.lookup fs q with
  | none =>
    have h2 : ¬ q = r := fun hq => h hq.symm
    rw [FS.lookup_append_single]
    cases hr : FS.lookup fs r <;> simp [h2]
  | some m => exact lookup_map_replace fs q n r h

/-! ### Subtree lemmas -/

theorem subtree_nil (p : FPath) : subtree [] p = [] := rfl

theorem subtree_cons (e : FPath × Node) (fs : FS) (p : FPath) :
    subtree (e :: fs) p =
      (if p.isPrefixOf e.1 then [(e.1.drop p.length, e.2)] else []) ++ subtree fs p := by
  by_cases h : p.isPrefixOf e.1 = true <;> simp [subtree, List.filter_cons, h]

theorem subtree_append (fs1 fs2 : FS) (p : FPath) :
    subtree (fs1 ++ fs2) p = subtree fs1 p ++ subtree fs2 p := by
  simp [subtree, List.filter_append]

theorem lookup_subtree {p q : FPath} (fs : FS) (hpq : p <+: q) :
    FS.lookup fs q = FS.lookup (subtree fs p) (q.drop p.length) := by
  induction fs with
  | nil => rfl
  | cons e t ih =>
    rw [FS.lookup_cons, subtree_cons]
    by_cases hp : p.isPrefixOf e.1 = true
    · have hpe : p <+: e.1 := List.isPrefixOf_iff_prefix.mp hp
      have hiff := eq_iff_drop_eq hpe hpq
      by_cases he : e.1 = q
      · simp [hp, FS.lookup_cons, he, hiff.mp he, hpq]
      · have hd : ¬ (e.1.drop p.length = q.drop p.length) :=
          fun hd => he (hiff.mpr hd)
        simp [hp, FS.lookup_cons, he, hd, ih]
    · have hpe : ¬ p <+: e.1 := fun hc => hp (List.isPrefixOf_iff_prefix.mpr hc)
      have he : ¬ e.1 = q := fun hc => hpe (hc ▸ hpq)
      simp [hp, FS.lookup_cons, he, ih]

theorem subtree_map_replace {p q : FPath} (fs : FS) (n : Node) (hpq : p <+: q) :
    subtree (fs.map (fun e => if e.1 = q then (q, n) else e)) p =
      (subtree fs p).map
        (fun e => if e.1 = q.drop p.length then (q.drop p.length, n) else e) := by
  induction fs with
  | nil => rfl
  | cons e t ih =>
    by_cases he : e.1 = q
    · have hpe : p <+: e.1 := he ▸ hpq
      have hp : p.isPrefixOf e.1 = true := List.isPrefixOf_iff_prefix.mpr hpe
      have hpq' : p.isPrefixOf q = true := List.isPrefixOf_iff_prefix.mpr hpq
      simp [subtree_cons, he, hp, hpq', ih]
    · by_cases hp : p.isPrefixOf e.1 = true
      · have hpe : p <+: e.1 := List.isPrefixOf_iff_prefix.mp hp
        have hd : ¬ (e.1.drop p.length = q.drop p.length) :=
          fun hd => he ((eq_iff_drop_eq hpe hpq).mpr hd)
        simp [subtree_cons, he, hp, hd, ih]
      · simp [subtree_cons, he, hp, ih]

theorem subtree_setEntry_pfx {p q : FPath} (fs : FS) (n : Node)
    (hpq : p <+: q) :
    subtree (setEntry fs q n) p = setEntry (subtree fs p) (q.drop p.length) n := by
  unfold setEntry
  rw [← lookup_subtree fs hpq]
  cases hl : FS.lookup fs q with
  | none =>
    have hpq' : p.isPrefixOf q = true := List.isPrefixOf_iff_prefix.mpr hpq
    simp [subtree_append, subtree_cons, subtree_nil, hpq']
  | some m => exact subtree_map_replace fs n hpq

theorem subtree_map_replace_not_pfx {p q : FPath} (fs : FS) (n : Node)
    (hpq : ¬ p <+: q) :
    subtree (fs.map (fun e => if e.1 = q then (q, n) else e)) p = subtree fs p := by
  induction fs with
  | nil => rfl
  | cons e t ih =>
    by_cases he : e.1 = q
    · have hpe : ¬ p <+: e.1 := he ▸ hpq
      have hp : p.isPrefixOf e.1 = false := by
        cases hb : p.isPrefixOf e.1
        · rfl
        · exact absurd (List.isPrefixOf_iff_prefix.mp hb) hpe
      have hpq' : p.isPrefixOf q = false := by
        cases hb : p.isPrefixOf q
        · rfl
        · exact absurd (List.isPrefixOf_iff_prefix.mp hb) hpq
      simp [subtree_cons, he, hp, hpq', ih]
    · simp [subtree_cons, he, ih]

theorem subtree_setEntry_not_pfx {p q : FPath} (fs : FS) (n : Node)
    (hpq : ¬ p <+: q) :
    subtree (setEntry fs q n) p = subtree fs p := by
  unfold setEntry
  cases hl : FS.lookup fs q with
  | none =>
    have hpq' : p.isPrefixOf q = false := by
      cases hb : p.isPrefixOf q
      · rfl
      · exact absurd (List.isPrefixOf_iff_prefix.mp hb) hpq
    simp [subtree_append, subtree_cons, subtree_nil, hpq']
  | some m => exact subtree_map_replace_not_pfx fs n hpq

theorem lookup_congr_of_subtree {p q : FPath} {fsA fsB : FS}
    (h : subtree fsA p = subtree fsB p) (hpq : p <+: q) :
    FS.lookup fsA q = FS.lookup fsB q := by
  rw [lookup_subtree fsA hpq, lookup_subtree fsB hpq, h]

/-! ### mkdirs / ensureDir lemmas -/

theorem mkdirs_cons (fs : FS) (q : FPath) (rest : List FPath) :
    mkdirs fs (q :: rest) =
      match FS.lookup fs q with
      | some (Node.file _) => (fs, some ("ensureDir: path exists and is a file"))
      | some Node.dir => mkdirs fs rest
      | none => mkdirs (setEntry fs q Node.dir) rest := rfl

theorem mkdirs_lookup_some (ps : List FPath) (fs : FS) {r : FPath} {n : Node}
    (h : FS.lookup fs r = some n) :
    FS.lookup (mkdirs fs ps).1 r = some n := by
  induction ps generalizing fs with
  | nil => simpa [mkdirs]
  | cons q rest ih =>
    cases hl : FS.lookup fs q with
    | some m =>
      cases m with
      | file c => simpa [mkdirs_cons, hl] using h
      | dir => simpa [mkdirs_cons, hl] using ih fs h
    | none =>
      have hne : r ≠ q := by
        intro hrq
        rw [hrq, hl] at h
        cases h
      have h2 : FS.lookup (setEntry fs q Node.dir) r = some n := by
        rw [lookup_setEntry_ne fs q Node.dir r hne]
        exact h
      simpa [mkdirs_cons, hl] using ih (setEntry fs q Node.dir) h2

theorem mkdirs_none_lookup_dir (ps : List FPath) (fs : FS)
    (hs : (mkdirs fs ps).2 = none) {q : FPath} (hq : q ∈ ps) :
    FS.lookup (mkdirs fs ps).1 q = some Node.dir := by
  induction ps generalizing fs with
  | nil => cases hq
  | cons a rest ih =>
    cases hl : FS.lookup fs a with
    | some m =>
      cases m with
      | file c =>
        rw [mkdirs_cons] at hs
        simp [hl] at hs
      | dir =>
        rw [mkdirs_cons] at hs ⊢
        simp only [hl] at hs ⊢
        rcases List.mem_cons.mp hq with hqa | hqr
        · exact mkdirs_lookup_some rest fs (hqa ▸ hl)
        · exact ih fs hs hqr
    | none =>
      rw [mkdirs_cons] at hs ⊢
      simp only [hl] at hs ⊢
      rcases List.mem_cons.mp hq with hqa | hqr
      · subst hqa
        exact mkdirs_lookup_some rest _ (lookup_setEntry_self fs q Node.dir)
      · exact ih _ hs hqr

theorem mkdirs_congr {p : FPath} (ps : List FPath) {fsA fsB : FS}
    (h : subtree fsA p = subtree fsB p)
    (hA : (mkdirs fsA ps).2 = none) (hB : (mkdirs fsB ps).2 = none) :
    subtree (mkdirs fsA ps).1 p = subtree (mkdirs fsB ps).1 p := by
  induction ps generalizing fsA fsB with
  | nil => simpa [mkdirs]
  | cons q rest ih =>
    by_cases hpq : p <+: q
    · have hq : FS.lookup fsA q = FS.lookup fsB q := lookup_congr_of_subtree h hpq
      cases hl : FS.lookup fsA q with
      | some m =>
        have hlB : FS.lookup fsB q = some m := hq.symm.trans hl
        cases m with
        | file c =>
          rw [mkdirs_cons] at hA
          simp [hl] at hA
        | dir =>
          rw [mkdirs_cons] at hA ⊢
          rw [mkdirs_cons] at hB
          simp only [hl] at hA ⊢
          simp only [hlB] at hB
          rw [mkdirs_cons]
          simp only [hlB]
          exact ih h hA hB
      | none =>
        have hlB : FS.lookup fsB q = none := hq.symm.trans hl
        rw [mkdirs_cons] at hA ⊢
        rw [mkdirs_cons] at hB
        simp only [hl] at hA ⊢
        simp only [hlB] at hB
        rw [mkdirs_cons]
        simp only [hlB]
        have h2 : subtree (setEntry fsA q Node.dir) p =
            subtree (setEntry fsB q Node.dir) p := by
          rw [subtree_setEntry_pfx fsA Node.dir hpq,
            subtree_setEntry_pfx fsB Node.dir hpq, h]
        exact ih h2 hA hB
    · cases hlA : FS.lookup fsA q with
      | some mA =>
        cases mA with
        | file c =>
          rw [mkdirs_cons] at hA
          simp [hlA] at hA
        | dir =>
          rw [mkdirs_cons fsA q rest] at hA ⊢
          simp only [hlA] at hA ⊢
          cases hlB : FS.lookup fsB q with
          | some mB =>
            cases mB with
            | file c =>
              rw [mkdirs_cons] at hB
              simp [hlB] at hB
            | dir =>
              rw [mkdirs_cons fsB q rest] at hB ⊢
              simp only [hlB] at hB ⊢
              exact ih h hA hB
          | none =>
            rw [mkdirs_cons fsB q rest] at hB ⊢
            simp only [hlB] at hB ⊢
            have h2 : subtree fsA p = subtree (setEntry fsB q Node.dir) p := by
              rw [subtree_setEntry_not_pfx fsB Node.dir hpq]
              exact h
            exact ih h2 hA hB
      | none =>
        rw [mkdirs_cons fsA q rest] at hA ⊢
        simp only [hlA] at hA ⊢
        have h2A : subtree (setEntry fsA q Node.dir) p = subtree fsB p := by
          rw [subtree_setEntry_not_pfx fsA Node.dir hpq]
          exact h
        cases hlB : FS.lookup fsB q with
        | some mB =>
          cases mB with
          | file c =>
            rw [mkdirs_cons] at hB
            simp [hlB] at hB
          | dir =>
            rw [mkdirs_cons fsB q rest] at hB ⊢
            simp only [hlB] at hB ⊢
            exact ih h2A hA hB
        | none =>
          rw [mkdirs_cons fsB q rest] at hB ⊢
          simp only [hlB] at hB ⊢
          have h2 : subtree (setEntry fsA q Node.dir) p =
              subtree (setEntry fsB q Node.dir) p := by
            rw [subtree_setEntry_not_pfx fsA Node.dir hpq,
              subtree_setEntry_not_pfx fsB Node.dir hpq]
            exact h
          exact ih h2 hA hB

theorem mkdirs_frame {p : FPath} (ps : List FPath) (fs : FS)
    (hps : ∀ q ∈ ps, ¬ p <+: q) :
    subtree (mkdirs fs ps).1 p = subtree fs p := by
  induction ps generalizing fs with
  | nil => simp [mkdirs]
  | cons q rest ih =>
    have hq : ¬ p <+: q := hps q (List.mem_cons_self q rest)
    have hrest : ∀ r ∈ rest, ¬ p <+: r := fun r hr => hps r (List.mem_cons_of_mem q hr)
    cases hl : FS.lookup fs q with
    | some m =>
      cases m with
      | file c => simp [mkdirs_cons, hl]
      | dir => simpa [mkdirs_cons, hl] using ih fs hrest
    | none =>
      rw [mkdirs_cons]
      simp only [hl]
      rw [ih _ hrest, subtree_setEntry_not_pfx fs Node.dir hq]

theorem mem_dirChain_pfx {q d : FPath} (h : q ∈ dirChain d) : q <+: d := by
  rcases List.mem_map.mp h with ⟨i, hi, rfl⟩
  exact List.take_prefix _ _

theorem self_mem_dirChain {d : FPath} (hd : d ≠ []) : d ∈ dirChain d := by
  have hlen : 0 < d.length := List.length_pos.mpr hd
  refine List.mem_map.mpr ⟨d.length - 1, List.mem_range.mpr (by omega), ?_⟩
  rw [show d.length - 1 + 1 = d.length from by omega, List.take_length]

theorem ensureDir_lookup_some (d : FPath) (fs : FS) {r : FPath} {n : Node}
    (h : FS.lookup fs r = some n) :
    FS.lookup (ensureDir fs d).1 r = some n :=
  mkdirs_lookup_some _ fs h

theorem ensureDir_none_lookup_dir {d : FPath} (fs : FS)
    (hs : (ensureDir fs d).2 = none) (hd : d ≠ []) :
    FS.lookup (ensureDir fs d).1 d = some Node.dir :=
  mkdirs_none_lookup_dir _ fs hs (self_mem_dirChain hd)

theorem ensureDir_congr {p : FPath} (d : FPath) {fsA fsB : FS}
    (h : subtree fsA p = subtree fsB p)
    (hA : (ensureDir fsA d).2 = none) (hB : (ensureDir fsB d).2 = none) :
    subtree (ensureDir fsA d).1 p = subtree (ensureDir fsB d).1 p :=
  mkdirs_congr _ h hA hB

theorem ensureDir_frame {p d : FPath} (fs : FS) (hpd : ¬ p <+: d) :
    subtree (ensureDir fs d).1 p = subtree fs p :=
  mkdirs_frame _ fs (fun q hq hpq => hpd (hpq.trans (mem_dirChain_pfx hq)))

/-! ### writeTextFile and sequencing lemmas -/

theorem writeTextFile_none_eq {ora : FPath → Bool} {fs : FS} {p : FPath}
    {c : String} {fs1 : FS} (h : writeTextFile ora fs p c = (fs1, none)) :
    fs1 = setEntry fs p (Node.file c) := by
  unfold writeTextFile at h
  split at h
  · simp [Prod.mk.injEq] at h
  · split at h
    · simp [Prod.mk.injEq] at h
    · split at h
      · simp [Prod.mk.injEq] at h
      · exact (Prod.mk.injEq _ _ _ _ ▸ h).1.symm

theorem writeTextFile_none_not_dir {ora : FPath → Bool} {fs : FS} {p : FPath}
    {c : String} {fs1 : FS} (h : writeTextFile ora fs p c = (fs1, none)) :
    FS.lookup fs p ≠ some Node.dir := by
  intro hd
  unfold writeTextFile at h
  rw [hd] at h
  split at h
  · simp_all
  · split at h <;> simp_all

theorem writeTextFile_fail_eq {ora : FPath → Bool} {fs : FS} {p : FPath}
    {c : String} {fs1 : FS} {e : String}
    (h : writeTextFile ora fs p c = (fs1, some e)) : fs1 = fs := by
  unfold writeTextFile at h
  split at h
  · exact ((Prod.mk.injEq _ _ _ _ ▸ h).1).symm
  · split at h
    · exact ((Prod.mk.injEq _ _ _ _ ▸ h).1).symm
    · split at h
      · exact ((Prod.mk.injEq _ _ _ _ ▸ h).1).symm
      · simp [Prod.mk.injEq] at h

theorem andThen_ok (fs0 : FS) (k : FS → FS × Option String) :
    andThen (fs0, none) k = k fs0 := rfl

theorem andThen_err (fs0 : FS) (e : String) (k : FS → FS × Option String) :
    andThen (fs0, some e) k = (fs0, some e) := rfl

theorem andThen_none_split {r : FS × Option String} {k : FS → FS × Option String}
    {fs1 : FS} (h : andThen r k = (fs1, none)) :
    ∃ fs0, r = (fs0, none) ∧ k fs0 = (fs1, none) := by
  rcases r with ⟨fs0, e⟩
  cases e with
  | none => exact ⟨fs0, rfl, h⟩
  | some m => simp [andThen] at h

theorem andThen_fail_split {r : FS × Option String} {k : FS → FS × Option String}
    {fs1 : FS} {e : String} (h : andThen r k = (fs1, some e)) :
    r = (fs1, some e) ∨ ∃ fs0, r = (fs0, none) ∧ k fs0 = (fs1, some e) := by
  rcases r with ⟨fs0, e0⟩
  cases e0 with
  | none => exact Or.inr ⟨fs0, rfl, h⟩
  | some m =>
    left
    simpa [andThen] using h

theorem existsPath_eq_of_subtree {p : FPath} {fsA fsB : FS}
    (h : subtree fsA p = subtree fsB p) : existsPath fsA p = existsPath fsB p := by
  unfold existsPath
  rw [lookup_subtree fsA List.prefix_rfl, lookup_subtree fsB List.prefix_rfl, h]

/-! ### writeOne lemmas -/

theorem writeOne_none_split {ora : FPath → Bool} {home : FPath} {fs : FS}
    {f : ConfigFile} {fs2 : FS} (h : writeOne ora home fs f = (fs2, none)) :
    ∃ fs1, ensureDir fs (fullPath home f).dropLast = (fs1, none) ∧
      writeTextFile ora fs1 (fullPath home f) f.content = (fs2, none) := by
  unfold writeOne at h
  exact andThen_none_split h

theorem writeOne_none_lookup {ora : FPath → Bool} {home : FPath} {fs : FS}
    {f : ConfigFile} {fs2 : FS} (h : writeOne ora home fs f = (fs2, none)) :
    FS.lookup fs2 (fullPath home f) = some (Node.file f.content) := by
  obtain ⟨fs1, h1, h2⟩ := writeOne_none_split h
  rw [writeTextFile_none_eq h2]
  exact lookup_setEntry_self fs1 _ _

theorem writeOne_none_preserve_some {ora : FPath → Bool} {home : FPath} {fs : FS}
    {f : ConfigFile} {fs2 : FS} {r : FPath} {n : Node}
    (h : writeOne ora home fs f = (fs2, none)) (hr : r ≠ fullPath home f)
    (hl : FS.lookup fs r = some n) : FS.lookup fs2 r = some n := by
  obtain ⟨fs1, h1, h2⟩ := writeOne_none_split h
  have hl1 : FS.lookup fs1 r = some n := by
    have := ensureDir_lookup_some (fullPath home f).dropLast fs hl
    rw [h1] at this
    exact this
  rw [writeTextFile_none_eq h2, lookup_setEntry_ne fs1 _ _ r hr]
  exact hl1

theorem writeOne_none_preserve_dir {ora : FPath → Bool} {home : FPath} {fs : FS}
    {f : ConfigFile} {fs2 : FS} {r : FPath}
    (h : writeOne ora home fs f = (fs2, none))
    (hl : FS.lookup fs r = some Node.dir) : FS.lookup fs2 r = some Node.dir := by
  obtain ⟨fs1, h1, h2⟩ := writeOne_none_split h
  have hl1 : FS.lookup fs1 r = some Node.dir := by
    have := ensureDir_lookup_some (fullPath home f).dropLast fs hl
    rw [h1] at this
    exact this
  by_cases hr : r = fullPath home f
  · exact absurd (hr ▸ hl1) (writeTextFile_none_not_dir h2)
  · rw [writeTextFile_none_eq h2, lookup_setEntry_ne fs1 _ _ r hr]
    exact hl1

theorem writeOne_fail_preserve_file {ora : FPath → Bool} {home : FPath} {fs : FS}
    {f : ConfigFile} {fs2 : FS} {e : String} {r : FPath} {c : String}
    (h : writeOne ora home fs f = (fs2, some e))
    (hl : FS.lookup fs r = some (Node.file c)) :
    FS.lookup fs2 r = some (Node.file c) := by
  unfold writeOne at h
  rcases andThen_fail_split h with h1 | ⟨fs1, h1, h2⟩
  · have := ensureDir_lookup_some (fullPath home f).dropLast fs hl
    rw [h1] at this
    exact this
  · have hl1 : FS.lookup fs1 r = some (Node.file c) := by
      have := ensureDir_lookup_some (fullPath home f).dropLast fs hl
      rw [h1] at this
      exact this
    rw [writeTextFile_fail_eq h2]
    exact hl1

theorem writeOne_congr {ora : FPath → Bool} {home : FPath} {fsA fsB : FS}
    {f : ConfigFile} {fsA2 fsB2 : FS}
    (h : subtree fsA (configDir home) = subtree fsB (configDir home))
    (hA : writeOne ora home fsA f = (fsA2, none))
    (hB : writeOne ora home fsB f = (fsB2, none)) :
    subtree fsA2 (configDir home) = subtree fsB2 (configDir home) := by
  obtain ⟨fsA1, hA1, hA2⟩ := writeOne_none_split hA
  obtain ⟨fsB1, hB1, hB2⟩ := writeOne_none_split hB
  have h1 : subtree fsA1 (configDir home) = subtree fsB1 (configDir home) := by
    have := ensureDir_congr (fullPath home f).dropLast h
      (by rw [hA1]) (by rw [hB1])
    rw [hA1, hB1] at this
    exact this
  have hfull : configDir home <+: fullPath home f := List.prefix_append _ _
  rw [writeTextFile_none_eq hA2, writeTextFile_none_eq hB2,
    subtree_setEntry_pfx fsA1 _ hfull, subtree_setEntry_pfx fsB1 _ hfull, h1]

theorem writeTextFile_frame {p q : FPath} (ora : FPath → Bool) (fs : FS)
    (c : String) (hpq : ¬ p <+: q) :
    subtree (writeTextFile ora fs q c).1 p = subtree fs p := by
  cases hw : writeTextFile ora fs q c with
  | mk fs2 e =>
    cases e with
    | some m => rw [writeTextFile_fail_eq hw]
    | none => rw [writeTextFile_none_eq hw, subtree_setEntry_not_pfx fs _ hpq]

theorem writeOne_frame {p : FPath} (ora : FPath → Bool) (home : FPath)
    (fs : FS) (f : ConfigFile) (hp : ¬ p <+: fullPath home f) :
    subtree (writeOne ora home fs f).1 p = subtree fs p := by
  unfold writeOne
  cases he : ensureDir fs (fullPath home f).dropLast with
  | mk fs1 e =>
    have hframe1 : subtree fs1 p = subtree fs p := by
      have hd : ¬ p <+: (fullPath home f).dropLast :=
        fun hc => hp (hc.trans (List.dropLast_prefix _))
      have := ensureDir_frame fs hd
      rw [he] at this
      exact this
    cases e with
    | some m => simpa [andThen] using hframe1
    | none =>
      rw [andThen_ok]
      rw [writeTextFile_frame ora fs1 f.content hp]
      exact hframe1

/-! ### writeAll and createConfigFiles lemmas -/

theorem writeAll_cons (ora : FPath → Bool) (home : FPath) (fs : FS)
    (f : ConfigFile) (rest : List ConfigFile) :
    writeAll ora home fs (f :: rest) =
      andThen (writeOne ora home fs f) (fun fs1 => writeAll ora home fs1 rest) := rfl

theorem writeAll_append (ora : FPath → Bool) (home : FPath) (fs : FS)
    (l1 l2 : List ConfigFile) :
    writeAll ora home fs (l1 ++ l2) =
      andThen (writeAll ora home fs l1) (fun fs1 => writeAll ora home fs1 l2) := by
  induction l1 generalizing fs with
  | nil => rfl
  | cons f t ih =>
    rw [List.cons_append, writeAll_cons, writeAll_cons]
    cases hw : writeOne ora home fs f with
    | mk fs1 e => cases e <;> simp [andThen, ih]

theorem writeAll_none_preserve_some {ora : FPath → Bool} {home : FPath}
    (l : List ConfigFile) (fs : FS) {fs2 : FS} {r : FPath} {n : Node}
    (h : writeAll ora home fs l = (fs2, none))
    (hl : FS.lookup fs r = some n)
    (hne : ∀ f ∈ l, r ≠ fullPath home f) :
    FS.lookup fs2 r = some n := by
  induction l generalizing fs with
  | nil =>
    cases h
    exact hl
  | cons g rest ih =>
    rw [writeAll_cons] at h
    obtain ⟨fs1, hg, hrest⟩ := andThen_none_split h
    have hl1 : FS.lookup fs1 r = some n :=
      writeOne_none_preserve_some hg (hne g (List.mem_cons_self g rest)) hl
    exact ih fs1 hrest hl1 (fun f hf => hne f (List.mem_cons_of_mem g hf))

theorem writeAll_none_preserve_dir {ora : FPath → Bool} {home : FPath}
    (l : List ConfigFile) (fs : FS) {fs2 : FS} {r : FPath}
    (h : writeAll ora home fs l = (fs2, none))
    (hl : FS.lookup fs r = some Node.dir) :
    FS.lookup fs2 r = some Node.dir := by
  induction l generalizing fs with
  | nil =>
    cases h
    exact hl
  | cons g rest ih =>
    rw [writeAll_cons] at h
    obtain ⟨fs1, hg, hrest⟩ := andThen_none_split h
    exact ih fs1 hrest (writeOne_none_preserve_dir hg hl)

theorem writeAll_none_lookup {ora : FPath → Bool} {home : FPath}
    (l : List ConfigFile) (fs : FS) {fs2 : FS}
    (h : writeAll ora home fs l = (fs2, none))
    (hdist : l.Pairwise (fun a b => fullPath home a ≠ fullPath home b)) :
    ∀ f ∈ l, FS.lookup fs2 (fullPath home f) = some (Node.file f.content) := by
  induction l generalizing fs with
  | nil => intro f hf; cases hf
  | cons g rest ih =>
    rw [writeAll_cons] at h
    obtain ⟨fs1, hg, hrest⟩ := andThen_none_split h
    intro f hf
    rcases List.mem_cons.mp hf with rfl | hf2
    · have hlook : FS.lookup fs1 (fullPath home f) = some (Node.file f.content) :=
        writeOne_none_lookup hg
      have hne : ∀ r ∈ rest, fullPath home f ≠ fullPath home r :=
        (List.pairwise_cons.mp hdist).1
      exact writeAll_none_preserve_some rest fs1 hrest hlook
        (fun r hr => hne r hr)
    · exact ih fs1 hrest (List.pairwise_cons.mp hdist).2 f hf2

theorem writeAll_congr {ora : FPath → Bool} {home : FPath}
    (l : List ConfigFile) {fsA fsB fsA2 fsB2 : FS}
    (h : subtree fsA (configDir home) = subtree fsB (configDir home))
    (hA : writeAll ora home fsA l = (fsA2, none))
    (hB : writeAll ora home fsB l = (fsB2, none)) :
    subtree fsA2 (configDir home) = subtree fsB2 (configDir home) := by
  induction l generalizing fsA fsB with
  | nil =>
    cases hA
    cases hB
    exact h
  | cons g rest ih =>
    rw [writeAll_cons] at hA hB
    obtain ⟨fsA1, hgA, hrestA⟩ := andThen_none_split hA
    obtain ⟨fsB1, hgB, hrestB⟩ := andThen_none_split hB
    exact ih (writeOne_congr h hgA hgB) hrestA hrestB

theorem writeAll_frame {p : FPath} (ora : FPath → Bool) (home : FPath)
    (l : List ConfigFile) (fs : FS)
    (hp : ∀ f ∈ l, ¬ p <+: fullPath home f) :
    subtree (writeAll ora home fs l).1 p = subtree fs p := by
  induction l generalizing fs with
  | nil => rfl
  | cons g rest ih =>
    rw [writeAll_cons]
    cases hw : writeOne ora home fs g with
    | mk fs1 e =>
      have hframe1 : subtree fs1 p = subtree fs p := by
        have := writeOne_frame ora home fs g (hp g (List.mem_cons_self g rest))
        rw [hw] at this
        exact this
      cases e with
      | some m => simpa [andThen] using hframe1
      | none =>
        rw [andThen_ok]
        rw [ih fs1 (fun f hf => hp f (List.mem_cons_of_mem g hf))]
        exact hframe1

theorem createConfigFiles_none_split {ora : FPath → Bool} {home : FPath}
    {files : List ConfigFile} {fs fs2 : FS}
    (h : createConfigFiles ora home files fs = (fs2, none)) :
    ∃ fs1, writeAll ora home fs files = (fs1, none) ∧
      ensureDir fs1 (configDir home ++ ["undo"]) = (fs2, none) := by
  unfold createConfigFiles at h
  exact andThen_none_split h

theorem createConfigFiles_congr {ora : FPath → Bool} {home : FPath}
    {files : List ConfigFile} {fsA fsB fsA2 fsB2 : FS}
    (h : subtree fsA (configDir home) = subtree fsB (configDir home))
    (hA : createConfigFiles ora home files fsA = (fsA2, none))
    (hB : createConfigFiles ora home files fsB = (fsB2, none)) :
    subtree fsA2 (configDir home) = subtree fsB2 (configDir home) := by
  obtain ⟨fsA1, hwA, huA⟩ := createConfigFiles_none_split hA
  obtain ⟨fsB1, hwB, huB⟩ := createConfigFiles_none_split hB
  have h1 := writeAll_congr files h hwA hwB
  have h2 := ensureDir_congr (configDir home ++ ["undo"]) h1
    (by rw [huA]) (by rw [huB])
  rw [huA, huB] at h2
  exact h2

theorem createConfigFiles_frame_backup (ora : FPath → Bool) (home : FPath)
    (files : List ConfigFile) (fs : FS) :
    subtree (createConfigFiles ora home files fs).1 (backupDir home) =
      subtree fs (backupDir home) := by
  unfold createConfigFiles
  cases hw : writeAll ora home fs files with
  | mk fs1 e =>
    have hframe1 : subtree fs1 (backupDir home) = subtree fs (backupDir home) := by
      have := writeAll_frame ora home files fs
        (fun f _ => not_backupDir_prefix_configDir_append home (splitPath f.path))
      rw [hw] at this
      exact this
    cases e with
    | some m => simpa [andThen] using hframe1
    | none =>
      rw [andThen_ok]
      rw [ensureDir_frame fs1 (not_backupDir_prefix_configDir_append home ["undo"])]
      exact hframe1

/-! ### Backup step lemmas -/

theorem subtree_removeFilter_self (fs : FS) (p : FPath) :
    subtree (fs.filter (fun e => !(p.isPrefixOf e.1))) p = [] := by
  induction fs with
  | nil => rfl
  | cons e t ih =>
    by_cases hp : p.isPrefixOf e.1 = true
    · simp [List.filter_cons, hp, ih]
    · simp [List.filter_cons, hp, subtree_cons, ih]

theorem subtree_filter_keep {fs : FS} {p q : FPath}
    (hdisj : ∀ r : FPath, p <+: r → q <+: r → False) :
    subtree (fs.filter (fun e => !(q.isPrefixOf e.1))) p = subtree fs p := by
  induction fs with
  | nil => rfl
  | cons e t ih =>
    by_cases hq : q.isPrefixOf e.1 = true
    · have hp : ¬ p <+: e.1 :=
        fun hc => hdisj e.1 hc (List.isPrefixOf_iff_prefix.mp hq)
      have hp' : p.isPrefixOf e.1 = false := by
        cases hb : p.isPrefixOf e.1
        · rfl
        · exact absurd (List.isPrefixOf_iff_prefix.mp hb) hp
      simp [List.filter_cons, hq, subtree_cons, hp', ih]
    · simp [List.filter_cons, hq, subtree_cons, ih]

theorem cfg_bak_no_common_ext (home : FPath) :
    ∀ r : FPath, configDir home <+: r → backupDir home <+: r → False := by
  intro r h1 h2
  have e1 := List.prefix_iff_eq_take.mp h1
  have e2 := List.prefix_iff_eq_take.mp h2
  rw [length_backupDir_eq] at e2
  exact configDir_ne_backupDir home (e1.trans e2.symm)

theorem existsPath_false_of_subtree_nil {fs : FS} {p : FPath}
    (h : subtree fs p = []) : existsPath fs p = false := by
  unfold existsPath
  rw [lookup_subtree fs List.prefix_rfl, List.drop_length, h]
  rfl

theorem removeRecursive_of_exists {fs : FS} {p : FPath}
    (h : existsPath fs p = true) :
    removeRecursive fs p = (fs.filter (fun e => !(p.isPrefixOf e.1)), none) := by
  unfold removeRecursive
  rw [h]
  rfl

theorem renameFs_none_split {fs : FS} {src dst : FPath} {fs2 : FS}
    (h : renameFs fs src dst = (fs2, none)) :
    existsPath fs src = true ∧ subtree fs dst = [] ∧
      fs2 = fs.map (fun e =>
        if src.isPrefixOf e.1 then (dst ++ e.1.drop src.length, e.2) else e) := by
  unfold renameFs at h
  by_cases h1 : existsPath fs src
  · by_cases h2 : (subtree fs dst).isEmpty
    · refine ⟨h1, List.isEmpty_iff.mp h2, ?_⟩
      simp only [h1, h2, Bool.not_true, Bool.false_eq_true, if_false] at h
      exact ((Prod.mk.injEq _ _ _ _ ▸ h).1).symm
    · simp only [h1, Bool.not_true, Bool.false_eq_true, if_false] at h
      rw [Bool.not_eq_true] at h2
      rw [h2] at h
      simp at h
  · rw [Bool.not_eq_true] at h1
    rw [h1] at h
    simp at h

theorem subtree_rename_dst {fs : FS} {home : FPath}
    (hempty : subtree fs (backupDir home) = []) :
    subtree (fs.map (fun e =>
        if (configDir home).isPrefixOf e.1
        then (backupDir home ++ e.1.drop (configDir home).length, e.2) else e))
      (backupDir home) = subtree fs (configDir home) := by
  induction fs with
  | nil => rfl
  | cons e t ih =>
    rw [subtree_cons] at hempty
    have hnotbak : ¬ backupDir home <+: e.1 := by
      intro hb
      simp [hb] at hempty
    have hempty' : subtree t (backupDir home) = [] := by
      simpa [hnotbak] using hempty
    by_cases hc : configDir home <+: e.1
    · have hbakpre : backupDir home <+:
          backupDir home ++ e.1.drop (configDir home).length :=
        List.prefix_append _ _
      simpa [subtree_cons, hc, hbakpre, List.drop_left] using ih hempty'
    · simpa [subtree_cons, hc, hnotbak] using ih hempty'

theorem subtree_rename_src_empty (fs : FS) (home : FPath) :
    subtree (fs.map (fun e =>
        if (configDir home).isPrefixOf e.1
        then (backupDir home ++ e.1.drop (configDir home).length, e.2) else e))
      (configDir home) = [] := by
  induction fs with
  | nil => rfl
  | cons e t ih =>
    by_cases hc : configDir home <+: e.1
    · have hnot : ¬ configDir home <+:
          backupDir home ++ e.1.drop (configDir home).length :=
        not_configDir_prefix_backupDir_append home _
      simpa [subtree_cons, hc, hnot] using ih
    · simpa [subtree_cons, hc] using ih

theorem backupExistingConfig_not_exists {home : FPath} {fs : FS}
    (h : existsPath fs (configDir home) = false) :
    backupExistingConfig home fs = (fs, none) := by
  unfold backupExistingConfig
  rw [h]
  rfl

theorem backupExistingConfig_none_moved {home : FPath} {fs fs2 : FS}
    (h : backupExistingConfig home fs = (fs2, none))
    (hex : existsPath fs (configDir home) = true) :
    subtree fs2 (backupDir home) = subtree fs (configDir home) ∧
    subtree fs2 (configDir home) = [] ∧
    existsPath fs2 (configDir home) = false := by
  unfold backupExistingConfig at h
  rw [hex] at h
  simp only [if_true] at h
  obtain ⟨fs1, h1, h2⟩ := andThen_none_split h
  have hcfg1 : subtree fs1 (configDir home) = subtree fs (configDir home) := by
    cases hbak : existsPath fs (backupDir home) with
    | true =>
      rw [hbak] at h1
      simp only [if_true, removeRecursive_of_exists hbak, Prod.mk.injEq] at h1
      rw [← h1.1]
      exact subtree_filter_keep (cfg_bak_no_common_ext home)
    | false =>
      rw [hbak] at h1
      simp only [Bool.false_eq_true, if_false, Prod.mk.injEq] at h1
      rw [← h1.1]
  obtain ⟨hsrc, hdst, heq⟩ := renameFs_none_split h2
  subst heq
  refine ⟨?_, ?_, ?_⟩
  · rw [subtree_rename_dst hdst, hcfg1]
  · exact subtree_rename_src_empty fs1 home
  · exact existsPath_false_of_subtree_nil (subtree_rename_src_empty fs1 home)

theorem renameFs_ok {fs : FS} {src dst : FPath} (h1 : existsPath fs src = true)
    (h2 : subtree fs dst = []) :
    renameFs fs src dst = (fs.map (fun e =>
      if src.isPrefixOf e.1 then (dst ++ e.1.drop src.length, e.2) else e), none) := by
  unfold renameFs
  rw [h1, h2]
  rfl

theorem backupExistingConfig_progress {home : FPath} {fs : FS}
    (hwf : existsPath fs (backupDir home) = false →
      subtree fs (backupDir home) = []) :
    (backupExistingConfig home fs).2 = none := by
  unfold backupExistingConfig
  cases hex : existsPath fs (configDir home) with
  | false => rfl
  | true =>
    simp only [if_true]
    cases hbak : existsPath fs (backupDir home) with
    | false =>
      simp only [Bool.false_eq_true, if_false, andThen_ok]
      rw [renameFs_ok hex (hwf hbak)]
    | true =>
      simp only [if_true, removeRecursive_of_exists hbak, andThen_ok]
      have hex1 : existsPath
          (fs.filter (fun e => !((backupDir home).isPrefixOf e.1)))
          (configDir home) = true := by
        rw [existsPath_eq_of_subtree (subtree_filter_keep (cfg_bak_no_common_ext home))]
        exact hex
      rw [renameFs_ok hex1 (subtree_removeFilter_self fs (backupDir home))]

/-! ### Sample project frame lemma -/

theorem not_prefix_appendSingle {p d : FPath} (x : String)
    (h1 : ¬ p <+: d) (h2 : ¬ d <+: p) : ¬ p <+: d ++ [x] := by
  intro h
  rcases List.prefix_concat_iff.mp h with he | hp
  · apply h2
    rw [he]
    exact List.prefix_append d [x]
  · exact h1 hp

theorem createSampleDenoProject_frame {p : FPath} (ora : FPath → Bool)
    (cwd : FPath) (st : SampleTexts) (fs : FS)
    (h1 : ¬ p <+: cwd ++ ["deno-sample-project"])
    (h2 : ¬ (cwd ++ ["deno-sample-project"]) <+: p) :
    subtree (createSampleDenoProject ora cwd st fs).1 p = subtree fs p := by
  have hj : ¬ p <+: cwd ++ ["deno-sample-project", "deno.json"] := by
    have := not_prefix_appendSingle ("deno.json") h1 h2
    simpa using this
  have hm : ¬ p <+: cwd ++ ["deno-sample-project", "main.ts"] := by
    have := not_prefix_appendSingle ("main.ts") h1 h2
    simpa using this
  have ht : ¬ p <+: cwd ++ ["deno-sample-project", "main_test.ts"] := by
    have := not_prefix_appendSingle ("main_test.ts") h1 h2
    simpa using this
  unfold createSampleDenoProject
  cases he : ensureDir fs (cwd ++ ["deno-sample-project"]) with
  | mk fs1 e =>
    have hf1 : subtree fs1 p = subtree fs p := by
      have := ensureDir_frame fs h1
      rw [he] at this
      exact this
    cases e with
    | some m => simpa [andThen] using hf1
    | none =>
      rw [andThen_ok]
      cases hw1 : writeTextFile ora fs1 (cwd ++ ["deno-sample-project", "deno.json"]) st.denoJson with
      | mk fs2 e2 =>
        have hf2 : subtree fs2 p = subtree fs1 p := by
          have := writeTextFile_frame ora fs1 st.denoJson hj
          rw [hw1] at this
          exact this
        cases e2 with
        | some m => simpa [andThen] using hf2.trans hf1
        | none =>
          rw [andThen_ok]
          cases hw2 : writeTextFile ora fs2 (cwd ++ ["deno-sample-project", "main.ts"]) st.mainTs with
          | mk fs3 e3 =>
            have hf3 : subtree fs3 p = subtree fs2 p := by
              have := writeTextFile_frame ora fs2 st.mainTs hm
              rw [hw2] at this
              exact this
            cases e3 with
            | some m => simpa [andThen] using (hf3.trans hf2).trans hf1
            | none =>
              rw [andThen_ok]
              have hf4 := writeTextFile_frame ora fs3 st.mainTest ht
              rw [hf4]
              exact (hf3.trans hf2).trans hf1

/-! ### Orchestrator (run) helpers -/

theorem run_prereq_fail {tools : ToolEnv} (ora : FPath → Bool)
    (home cwd : FPath) (files : List ConfigFile) (st : SampleTexts)
    (ns : Bool) (fs : FS) {m : String} (h : checkPrerequisites tools = some m) :
    NeovimSetup.run tools ora home cwd files st ns fs = (fs, some m) := by
  unfold NeovimSetup.run
  rw [h]

theorem run_none_split {tools : ToolEnv} {ora : FPath → Bool}
    {home cwd : FPath} {files : List ConfigFile} {st : SampleTexts}
    {ns : Bool} {fs fs4 : FS}
    (h : NeovimSetup.run tools ora home cwd files st ns fs = (fs4, none)) :
    checkPrerequisites tools = none ∧
    ∃ fs1 fs2 fs3,
      backupExistingConfig home fs = (fs1, none) ∧
      ensureDir fs1 (configDir home) = (fs2, none) ∧
      createConfigFiles ora home files fs2 = (fs3, none) ∧
      ((ns = true ∧ fs4 = fs3) ∨
        (ns = false ∧ createSampleDenoProject ora cwd st fs3 = (fs4, none))) := by
  unfold NeovimSetup.run at h
  cases hc : checkPrerequisites tools with
  | some m =>
    rw [hc] at h
    simp at h
  | none =>
    rw [hc] at h
    obtain ⟨fs1, h1, h'⟩ := andThen_none_split h
    obtain ⟨fs2, h2, h''⟩ := andThen_none_split h'
    obtain ⟨fs3, h3, h'''⟩ := andThen_none_split h''
    refine ⟨rfl, fs1, fs2, fs3, h1, h2, h3, ?_⟩
    cases ns with
    | true =>
      left
      refine ⟨rfl, ?_⟩
      simp only [if_true] at h'''
      exact ((Prod.mk.injEq _ _ _ _ ▸ h''').1).symm
    | false =>
      right
      refine ⟨rfl, ?_⟩
      simpa using h'''

/-! ### Claim theorems -/

/-- C1: for every run in which the target installation directory exists at
the start of the backup step, after `backupExistingConfig` completes the
prior contents of the target directory are located at the backup directory
path and the target directory no longer exists; if the target directory did
not exist, the backup step performs no filesystem action.  Exactly one of
{no prior config existed, prior config now lives at the backup path} holds
at the end of the step.  The hypothesis `hwf` excludes filesystem values no
real filesystem reaches (entries below a backup directory that itself does
not exist). -/
theorem C1_backup_postcondition (home : FPath) (fs : FS)
    (hwf : existsPath fs (backupDir home) = false →
      subtree fs (backupDir home) = []) :
    ∃ fs2, backupExistingConfig home fs = (fs2, none) ∧
      (existsPath fs (configDir home) = true →
        subtree fs2 (backupDir home) = subtree fs (configDir home) ∧
        existsPath fs2 (configDir home) = false ∧
        subtree fs2 (configDir home) = []) ∧
      (existsPath fs (configDir home) = false → fs2 = fs) ∧
      Xor' (existsPath fs (configDir home) = false ∧ fs2 = fs)
        (existsPath fs (configDir home) = true ∧
          subtree fs2 (backupDir home) = subtree fs (configDir home)) := by
  have hnone := backupExistingConfig_progress hwf
  cases hb : backupExistingConfig home fs with
  | mk fs2 e =>
    rw [hb] at hnone
    subst hnone
    refine ⟨fs2, rfl, ?_, ?_, ?_⟩
    · intro hex
      obtain ⟨m1, m2, m3⟩ := backupExistingConfig_none_moved hb hex
      exact ⟨m1, m3, m2⟩
    · intro hex
      have h0 := backupExistingConfig_not_exists hex
      rw [hb] at h0
      exact (Prod.mk.injEq _ _ _ _ ▸ h0).1
    · cases hex : existsPath fs (configDir home) with
      | false =>
        left
        have h0 := backupExistingConfig_not_exists hex
        rw [hb] at h0
        refine ⟨⟨rfl, (Prod.mk.injEq _ _ _ _ ▸ h0).1⟩, ?_⟩
        intro hr
        exact absurd hr.1 (by decide)
      | true =>
        right
        refine ⟨⟨rfl, (backupExistingConfig_none_moved hb hex).1⟩, ?_⟩
        intro hl
        exact absurd hl.1 (by decide)

/-- C2: when both the target directory and a backup directory exist before
the backup step, the pre-existing backup is removed before the rename, so
after the step the backup path holds exactly the immediately prior
target-directory contents — at most one backup generation is retained. -/
theorem C2_single_backup_generation (home : FPath) (fs : FS)
    (hcfg : existsPath fs (configDir home) = true)
    (hbak : existsPath fs (backupDir home) = true) :
    ∃ fs2, backupExistingConfig home fs = (fs2, none) ∧
      subtree fs2 (backupDir home) = subtree fs (configDir home) ∧
      ∀ en ∈ subtree fs2 (backupDir home), en ∈ subtree fs (configDir home) := by
  have hwf : existsPath fs (backupDir home) = false →
      subtree fs (backupDir home) = [] := by
    intro h
    rw [h] at hbak
    cases hbak
  have hnone := backupExistingConfig_progress hwf
  cases hb : backupExistingConfig home fs with
  | mk fs2 e =>
    rw [hb] at hnone
    subst hnone
    have hmoved := backupExistingConfig_none_moved hb hcfg
    exact ⟨fs2, rfl, hmoved.1, fun en hen => hmoved.1 ▸ hen⟩

/-- C9: for every run in which the target installation directory does not
exist before the run, no backup directory is created by that run, and any
backup directory that already existed before the run is left unchanged
(both its existence flag and its whole subtree).  The two prefix
hypotheses say the sample-project directory in the current working
directory does not overlap the backup path. -/
theorem C9_no_backup_touched (tools : ToolEnv) (ora : FPath → Bool)
    (home cwd : FPath) (files : List ConfigFile) (st : SampleTexts)
    (ns : Bool) (fs : FS)
    (hex : existsPath fs (configDir home) = false)
    (h1 : ¬ backupDir home <+: cwd ++ ["deno-sample-project"])
    (h2 : ¬ (cwd ++ ["deno-sample-project"]) <+: backupDir home) :
    subtree (NeovimSetup.run tools ora home cwd files st ns fs).1
        (backupDir home) = subtree fs (backupDir home) ∧
    existsPath (NeovimSetup.run tools ora home cwd files st ns fs).1
        (backupDir home) = existsPath fs (backupDir home) := by
  have hsub : subtree (NeovimSetup.run tools ora home cwd files st ns fs).1
      (backupDir home) = subtree fs (backupDir home) := by
    unfold NeovimSetup.run
    cases hc : checkPrerequisites tools with
    | some m => rfl
    | none =>
      rw [backupExistingConfig_not_exists hex, andThen_ok]
      have hnotcfg : ¬ backupDir home <+: configDir home := by
        have := not_backupDir_prefix_configDir_append home []
        simpa using this
      cases he : ensureDir fs (configDir home) with
      | mk fs2 e2 =>
        have hf2 : subtree fs2 (backupDir home) = subtree fs (backupDir home) := by
          have := ensureDir_frame fs hnotcfg
          rw [he] at this
          exact this
        cases e2 with
        | some m => simpa [andThen] using hf2
        | none =>
          rw [andThen_ok]
          cases hcc : createConfigFiles ora home files fs2 with
          | mk fs3 e3 =>
            have hf3 : subtree fs3 (backupDir home) = subtree fs2 (backupDir home) := by
              have := createConfigFiles_frame_backup ora home files fs2
              rw [hcc] at this
              exact this
            cases e3 with
            | some m => simpa [andThen] using hf3.trans hf2
            | none =>
              rw [andThen_ok]
              cases ns with
              | true => simpa using hf3.trans hf2
              | false =>
                simp only [Bool.false_eq_true, if_false]
                rw [createSampleDenoProject_frame ora cwd st fs3 h1 h2]
                exact hf3.trans hf2
  exact ⟨hsub, existsPath_eq_of_subtree hsub⟩

theorem checkPrerequisites_some_cases {tools : ToolEnv} {m : String}
    (hm : checkPrerequisites tools = some m) :
    (probeOk tools.nvim = false ∧ m = "❌ Neovim is not installed or not in PATH") ∨
    (probeOk tools.nvim = true ∧ probeOk tools.deno = false ∧
      m = "❌ Deno is not installed or not in PATH") ∨
    (probeOk tools.nvim = true ∧ probeOk tools.deno = true ∧
      probeOk tools.git = false ∧
      m = "❌ Git is not installed or not in PATH") := by
  unfold checkPrerequisites at hm
  cases hn : probeOk tools.nvim with
  | false =>
    rw [hn] at hm
    simp at hm
    exact Or.inl ⟨rfl, hm.symm⟩
  | true =>
    rw [hn] at hm
    simp only [Bool.not_true, Bool.false_eq_true, if_false] at hm
    cases hd : probeOk tools.deno with
    | false =>
      rw [hd] at hm
      simp at hm
      exact Or.inr (Or.inl ⟨rfl, rfl, hm.symm⟩)
    | true =>
      rw [hd] at hm
      simp only [Bool.not_true, Bool.false_eq_true, if_false] at hm
      cases hg : probeOk tools.git with
      | false =>
        rw [hg] at hm
        simp at hm
        exact Or.inr (Or.inr ⟨rfl, rfl, rfl, hm.symm⟩)
      | true =>
        rw [hg] at hm
        simp at hm

/-- C4: when any of the three probed tools cannot be launched or exits
unsuccessfully, the process terminates with a non-zero exit status through
`run`'s catch handler, the raised message names the first failing tool in
probe order, and the filesystem is returned exactly as it was — the
prerequisite check precedes every filesystem mutation. -/
theorem C4_prerequisite_failure_no_mutation (env : Env) (tools : ToolEnv)
    (ora : FPath → Bool) (cwd : FPath) (files : List ConfigFile)
    (st : SampleTexts) (args : List String) (fs : FS) {m : String}
    {homeStr : String}
    (hm : checkPrerequisites tools = some m)
    (hhelp : args.contains ("--help") = false)
    (hh : args.contains ("-h") = false)
    (hdry : args.contains ("--dry-run") = false)
    (hhome : resolveHome env = some homeStr) :
    mainFn env tools ora cwd files st args fs =
      (fs, Outcome.caughtExit ("❌ Setup failed: " ++ m)) ∧
    Outcome.exitCode (Outcome.caughtExit ("❌ Setup failed: " ++ m)) = 1 ∧
    ((probeOk tools.nvim = false ∧ m = "❌ Neovim is not installed or not in PATH") ∨
     (probeOk tools.nvim = true ∧ probeOk tools.deno = false ∧
       m = "❌ Deno is not installed or not in PATH") ∨
     (probeOk tools.nvim = true ∧ probeOk tools.deno = true ∧
       probeOk tools.git = false ∧
       m = "❌ Git is not installed or not in PATH")) := by
  refine ⟨?_, rfl, checkPrerequisites_some_cases hm⟩
  have hrun := run_prereq_fail ora (splitPath homeStr) cwd files st
    (args.contains ("--no-sample")) fs hm
  unfold mainFn
  rw [hhelp, hh]
  simp only [Bool.or_self, Bool.false_eq_true, if_false]
  rw [hdry]
  simp only [Bool.false_eq_true, if_false]
  simp only [hhome, hrun]

theorem ensureDir_none_mem_dir {d : FPath} (fs : FS)
    (hs : (ensureDir fs d).2 = none) {q : FPath} (hq : q ∈ dirChain d) :
    FS.lookup (ensureDir fs d).1 q = some Node.dir :=
  mkdirs_none_lookup_dir _ fs hs hq

theorem writeOne_none_dirs {ora : FPath → Bool} {home : FPath} {fs : FS}
    {f : ConfigFile} {fs2 : FS} (h : writeOne ora home fs f = (fs2, none)) :
    ∀ q ∈ dirChain (fullPath home f).dropLast,
      FS.lookup fs2 q = some Node.dir := by
  obtain ⟨fs1, h1, h2⟩ := writeOne_none_split h
  intro q hq
  have hd : FS.lookup fs1 q = some Node.dir := by
    have := ensureDir_none_mem_dir fs (by rw [h1]) hq
    rw [h1] at this
    exact this
  by_cases hfq : q = fullPath home f
  · exact absurd (hfq ▸ hd) (writeTextFile_none_not_dir h2)
  · rw [writeTextFile_none_eq h2, lookup_setEntry_ne fs1 _ _ q hfq]
    exact hd

theorem writeAll_none_dirs {ora : FPath → Bool} {home : FPath}
    (l : List ConfigFile) (fs : FS) {fs2 : FS}
    (h : writeAll ora home fs l = (fs2, none)) :
    ∀ f ∈ l, ∀ q ∈ dirChain (fullPath home f).dropLast,
      FS.lookup fs2 q = some Node.dir := by
  induction l generalizing fs with
  | nil => intro f hf; cases hf
  | cons g rest ih =>
    rw [writeAll_cons] at h
    obtain ⟨fs1, hg, hrest⟩ := andThen_none_split h
    intro f hf
    rcases List.mem_cons.mp hf with rfl | hf2
    · intro q hq
      exact writeAll_none_preserve_dir rest fs1 hrest (writeOne_none_dirs hg q hq)
    · exact ih fs1 hrest f hf2

/-- C5 (amended): for every list of ConfigFileSpec entries whose
destination paths are pairwise distinct, after `createConfigFiles`
succeeds, every entry's relative path exists as a file under the base
directory with content byte-identical to the entry's literal content
(any existing file at that path having been overwritten without
confirmation — the initial filesystem is arbitrary), and every
intermediate directory on the entry's path is a directory. -/
theorem C5_materialization_fidelity (ora : FPath → Bool) (home : FPath)
    (files : List ConfigFile) (fs fs2 : FS)
    (hdist : files.Pairwise (fun a b => fullPath home a ≠ fullPath home b))
    (h : createConfigFiles ora home files fs = (fs2, none)) :
    ∀ f ∈ files,
      FS.lookup fs2 (fullPath home f) = some (Node.file f.content) ∧
      ∀ q ∈ dirChain (fullPath home f).dropLast,
        FS.lookup fs2 q = some Node.dir := by
  obtain ⟨fs1, hw, hu⟩ := createConfigFiles_none_split h
  intro f hf
  constructor
  · have hlook := writeAll_none_lookup files fs hw hdist f hf
    have h2 := ensureDir_lookup_some (configDir home ++ ["undo"]) fs1 hlook
    rw [hu] at h2
    exact h2
  · intro q hq
    have hd := writeAll_none_dirs files fs hw f hf q hq
    have h2 := ensureDir_lookup_some (configDir home ++ ["undo"]) fs1 hd
    rw [hu] at h2
    exact h2

/-- C5 counterexample: with two entries targeting the same relative path
`a` with different contents, materialization succeeds but the first
entry's path does not hold the first entry's content (the last write
wins), refuting the claim as stated for arbitrary entry lists. -/
theorem C5_duplicate_path_counterexample :
    (createConfigFiles (fun _ => true) ["h"]
        [⟨"a", "x", "first"⟩, ⟨"a", "y", "second"⟩] []).2 = none ∧
    (⟨"a", "x", "first"⟩ : ConfigFile) ∈
      [(⟨"a", "x", "first"⟩ : ConfigFile), ⟨"a", "y", "second"⟩] ∧
    ¬ (FS.lookup (createConfigFiles (fun _ => true) ["h"]
          [⟨"a", "x", "first"⟩, ⟨"a", "y", "second"⟩] []).1
        (fullPath ["h"] ⟨"a", "x", "first"⟩) =
        some (Node.file (ConfigFile.content ⟨"a", "x", "first"⟩))) := by
  decide

/-- C6: during file materialization, writes follow the input sequence
order: when every entry of a prefix `l1` succeeds and the next entry `x`
raises an I/O failure, the whole materialization of `l1 ++ x :: l2`
stops at `x` with exactly that error (the remaining entries and the undo
directory are never processed), files present after `l1` remain on disk
unchanged (no rollback), and in particular with pairwise-distinct paths
every earlier entry's file remains with its content. -/
theorem C6_failure_aborts_no_rollback (ora : FPath → Bool) (home : FPath)
    (l1 : List ConfigFile) (x : ConfigFile) (l2 : List ConfigFile)
    (fs fs1 fs2 : FS) (e : String)
    (h1 : writeAll ora home fs l1 = (fs1, none))
    (h2 : writeOne ora home fs1 x = (fs2, some e)) :
    createConfigFiles ora home (l1 ++ x :: l2) fs = (fs2, some e) ∧
    (∀ p c, FS.lookup fs1 p = some (Node.file c) →
      FS.lookup fs2 p = some (Node.file c)) ∧
    (l1.Pairwise (fun a b => fullPath home a ≠ fullPath home b) →
      ∀ f ∈ l1, FS.lookup fs2 (fullPath home f) = some (Node.file f.content)) := by
  have hall : writeAll ora home fs (l1 ++ x :: l2) = (fs2, some e) := by
    rw [writeAll_append, h1, andThen_ok, writeAll_cons, h2, andThen_err]
  refine ⟨?_, ?_, ?_⟩
  · unfold createConfigFiles
    rw [hall, andThen_err]
  · intro p c hp
    exact writeOne_fail_preserve_file h2 hp
  · intro hdist f hf
    exact writeOne_fail_preserve_file h2 (writeAll_none_lookup l1 fs h1 hdist f hf)

/-- C8: invocations whose arguments include `--help`/`-h` print the usage
text and exit zero with no filesystem mutation, and invocations with
`--dry-run` (and no help flag) print the planned-action description and
exit zero with no filesystem mutation.  Which text is printed is encoded
by the outcome constructors `helpExit` and `dryRunExit`. -/
theorem C8_help_dry_run_pure (env : Env) (tools : ToolEnv) (ora : FPath → Bool)
    (cwd : FPath) (files : List ConfigFile) (st : SampleTexts)
    (args : List String) (fs : FS) :
    (args.contains ("--help") = true ∨ args.contains ("-h") = true →
      mainFn env tools ora cwd files st args fs = (fs, Outcome.helpExit) ∧
      Outcome.exitCode Outcome.helpExit = 0) ∧
    (args.contains ("--help") = false → args.contains ("-h") = false →
      args.contains ("--dry-run") = true →
      mainFn env tools ora cwd files st args fs = (fs, Outcome.dryRunExit) ∧
      Outcome.exitCode Outcome.dryRunExit = 0) := by
  constructor
  · intro h
    refine ⟨?_, rfl⟩
    unfold mainFn
    rcases h with h | h
    · have h' : ("--help") ∈ args := by simpa using h
      simp [h']
    · have h' : ("-h") ∈ args := by simpa using h
      simp [h']
  · intro h1 h2 h3
    refine ⟨?_, rfl⟩
    unfold mainFn
    have h1' : ("--help") ∉ args := by simpa using h1
    have h2' : ("-h") ∉ args := by simpa using h2
    have h3' : ("--dry-run") ∈ args := by simpa using h3
    simp [h1', h2', h3']

/-- C10: when the arguments contain both a help flag and `--dry-run`,
help takes precedence: the usage text is printed (`helpExit`, which is
distinct from `dryRunExit`), the filesystem is untouched, the exit status
is zero, and no installer object is constructed — the result is the same
for every environment, including one in which no home directory can be
resolved. -/
theorem C10_help_precedence (env : Env) (tools : ToolEnv) (ora : FPath → Bool)
    (cwd : FPath) (files : List ConfigFile) (st : SampleTexts)
    (args : List String) (fs : FS)
    (hhelp : args.contains ("--help") = true ∨ args.contains ("-h") = true)
    (hdry : args.contains ("--dry-run") = true) :
    mainFn env tools ora cwd files st args fs = (fs, Outcome.helpExit) ∧
    Outcome.helpExit ≠ Outcome.dryRunExit ∧
    Outcome.exitCode Outcome.helpExit = 0 := by
  refine ⟨?_, by decide, rfl⟩
  unfold mainFn
  rcases hhelp with h | h
  · have h' : ("--help") ∈ args := by simpa using h
    simp [h']
  · have h' : ("-h") ∈ args := by simpa using h
    simp [h']

/-- C7 counterexample: with no home directory resolvable and a plain
invocation, the constructor's error escapes `main` without passing
through any catch handler of the script: the outcome is `uncaught`, not
the catch-and-format path, refuting the claim that every error —
including the construction-time one — is caught at the top level and
formatted.  (The process still terminates non-zero.) -/
theorem C7_constructor_error_uncaught_counterexample :
    mainFn ⟨none, none⟩ ⟨⟨true, true⟩, ⟨true, true⟩, ⟨true, true⟩⟩
        (fun _ => true) [] [] ⟨"", "", ""⟩ [] [] =
      ([], Outcome.uncaught ("Could not determine home directory")) ∧
    Outcome.isCaughtExit
      (Outcome.uncaught ("Could not determine home directory")) = false ∧
    Outcome.exitCode
      (Outcome.uncaught ("Could not determine home directory")) = 1 := by
  decide

/-- C7 (amended): every error raised inside `run()` during a full
installation run is caught by `run`'s catch handler, formatted as
`❌ Setup failed: <message>`, and causes termination with exit status 1;
the environment-unresolvable error raised at construction time, however,
is not caught by any handler in the script — it escapes `main` uncaught
and the process terminates with a non-zero status through the runtime's
default handler, without a formatted top-level message. -/
theorem C7_error_propagation (env : Env) (tools : ToolEnv) (ora : FPath → Bool)
    (cwd : FPath) (files : List ConfigFile) (st : SampleTexts)
    (args : List String) (fs : FS)
    (hhelp : args.contains ("--help") = false)
    (hh : args.contains ("-h") = false)
    (hdry : args.contains ("--dry-run") = false) :
    (∀ homeStr fs1 e, resolveHome env = some homeStr →
      NeovimSetup.run tools ora (splitPath homeStr) cwd files st
        (args.contains ("--no-sample")) fs = (fs1, some e) →
      mainFn env tools ora cwd files st args fs =
        (fs1, Outcome.caughtExit ("❌ Setup failed: " ++ e)) ∧
      Outcome.exitCode (Outcome.caughtExit ("❌ Setup failed: " ++ e)) = 1) ∧
    (resolveHome env = none →
      mainFn env tools ora cwd files st args fs =
        (fs, Outcome.uncaught ("Could not determine home directory")) ∧
      Outcome.isCaughtExit
        (Outcome.uncaught ("Could not determine home directory")) = false ∧
      Outcome.exitCode
        (Outcome.uncaught ("Could not determine home directory")) = 1) := by
  constructor
  · intro homeStr fs1 e hhome hrun
    refine ⟨?_, rfl⟩
    unfold mainFn
    rw [hhelp, hh]
    simp only [Bool.or_self, Bool.false_eq_true, if_false]
    rw [hdry]
    simp only [Bool.false_eq_true, if_false]
    simp only [hhome, hrun]
  · intro hhome
    refine ⟨?_, rfl, rfl⟩
    unfold mainFn
    rw [hhelp, hh]
    simp only [Bool.or_self, Bool.false_eq_true, if_false]
    rw [hdry]
    simp only [Bool.false_eq_true, if_false]
    simp only [hhome]

theorem cfg_ne_nil (home : FPath) : configDir home ≠ [] := by
  simp [configDir]

theorem createConfigFiles_none_preserve_dir {ora : FPath → Bool}
    {home : FPath} {files : List ConfigFile} {fs fs2 : FS} {q : FPath}
    (h : createConfigFiles ora home files fs = (fs2, none))
    (hl : FS.lookup fs q = some Node.dir) :
    FS.lookup fs2 q = some Node.dir := by
  obtain ⟨fs1, hw, hu⟩ := createConfigFiles_none_split h
  have h1 := writeAll_none_preserve_dir files fs hw hl
  have h2 := ensureDir_lookup_some (configDir home ++ ["undo"]) fs1 h1
  rw [hu] at h2
  exact h2

theorem createConfigFiles_none_undo_dir {ora : FPath → Bool}
    {home : FPath} {files : List ConfigFile} {fs fs2 : FS}
    (h : createConfigFiles ora home files fs = (fs2, none)) :
    FS.lookup fs2 (configDir home ++ ["undo"]) = some Node.dir := by
  obtain ⟨fs1, hw, hu⟩ := createConfigFiles_none_split h
  have := ensureDir_none_lookup_dir fs1 (by rw [hu]) (by simp)
  rw [hu] at this
  exact this

theorem lookup_transport {fsX fsY : FS} {P Q : FPath}
    (h : subtree fsX P = subtree fsY Q) (r : FPath) :
    FS.lookup fsX (P ++ r) = FS.lookup fsY (Q ++ r) := by
  rw [lookup_subtree fsX (List.prefix_append P r),
    lookup_subtree fsY (List.prefix_append Q r), List.drop_left, List.drop_left, h]

/-- C3: running the full installation twice in succession yields the same
final target-directory subtree as running it once, and the second run's
backup directory holds exactly what the target directory held after the
first run — in particular the materialized entries and the `undo`
subdirectory.  `hstart` excludes initial filesystem values no real
filesystem reaches (entries below a target directory that does not
exist); the prefix hypotheses say the sample-project directory under the
current working directory does not overlap the target or backup paths. -/
theorem C3_idempotent_reinstall (tools : ToolEnv) (ora : FPath → Bool)
    (home cwd : FPath) (files : List ConfigFile) (st : SampleTexts)
    (ns : Bool) (fs0 fs1 fs2 : FS)
    (hstart : existsPath fs0 (configDir home) = true ∨
      subtree fs0 (configDir home) = [])
    (hd1 : ¬ configDir home <+: cwd ++ ["deno-sample-project"])
    (hd2 : ¬ (cwd ++ ["deno-sample-project"]) <+: configDir home)
    (hb1 : ¬ backupDir home <+: cwd ++ ["deno-sample-project"])
    (hb2 : ¬ (cwd ++ ["deno-sample-project"]) <+: backupDir home)
    (hdist : files.Pairwise (fun a b => fullPath home a ≠ fullPath home b))
    (h1 : NeovimSetup.run tools ora home cwd files st ns fs0 = (fs1, none))
    (h2 : NeovimSetup.run tools ora home cwd files st ns fs1 = (fs2, none)) :
    subtree fs2 (configDir home) = subtree fs1 (configDir home) ∧
    subtree fs2 (backupDir home) = subtree fs1 (configDir home) ∧
    (∀ f ∈ files, FS.lookup fs2 (backupDir home ++ splitPath f.path) =
      some (Node.file f.content)) ∧
    FS.lookup fs2 (backupDir home ++ ["undo"]) = some Node.dir := by
  obtain ⟨hcA, fsA1, fsA2, fsA3, hA1, hA2, hA3, hSA⟩ := run_none_split h1
  obtain ⟨hcB, fsB1, fsB2, fsB3, hB1, hB2, hB3, hSB⟩ := run_none_split h2
  have hSA_cfg : subtree fs1 (configDir home) = subtree fsA3 (configDir home) := by
    rcases hSA with ⟨hns, rfl⟩ | ⟨hns, hsamp⟩
    · rfl
    · have := createSampleDenoProject_frame ora cwd st fsA3 hd1 hd2
      rw [hsamp] at this
      exact this
  have hSB_cfg : subtree fs2 (configDir home) = subtree fsB3 (configDir home) := by
    rcases hSB with ⟨hns, rfl⟩ | ⟨hns, hsamp⟩
    · rfl
    · have := createSampleDenoProject_frame ora cwd st fsB3 hd1 hd2
      rw [hsamp] at this
      exact this
  have hSB_bak : subtree fs2 (backupDir home) = subtree fsB3 (backupDir home) := by
    rcases hSB with ⟨hns, rfl⟩ | ⟨hns, hsamp⟩
    · rfl
    · have := createSampleDenoProject_frame ora cwd st fsB3 hb1 hb2
      rw [hsamp] at this
      exact this
  have hA1_cfg : subtree fsA1 (configDir home) = [] := by
    by_cases hex : existsPath fs0 (configDir home) = true
    · exact (backupExistingConfig_none_moved hA1 hex).2.1
    · have hexf : existsPath fs0 (configDir home) = false := by
        cases hb : existsPath fs0 (configDir home)
        · rfl
        · exact absurd hb hex
      have h0 := backupExistingConfig_not_exists hexf
      rw [hA1] at h0
      have hfs : fsA1 = fs0 := congrArg Prod.fst h0
      rw [hfs]
      exact hstart.resolve_left hex
  have hdirA2 : FS.lookup fsA2 (configDir home) = some Node.dir := by
    have := ensureDir_none_lookup_dir fsA1 (by rw [hA2]) (cfg_ne_nil home)
    rw [hA2] at this
    exact this
  have hdirA3 : FS.lookup fsA3 (configDir home) = some Node.dir :=
    createConfigFiles_none_preserve_dir hA3 hdirA2
  have hdir1 : FS.lookup fs1 (configDir home) = some Node.dir := by
    have := lookup_congr_of_subtree hSA_cfg (List.prefix_rfl)
    rw [this]
    exact hdirA3
  have hex1 : existsPath fs1 (configDir home) = true := by
    unfold existsPath
    rw [hdir1]
    rfl
  obtain ⟨hmB1, hmB2, hmB3⟩ := backupExistingConfig_none_moved hB1 hex1
  have hcong2 : subtree fsA2 (configDir home) = subtree fsB2 (configDir home) := by
    have h0 : subtree fsA1 (configDir home) = subtree fsB1 (configDir home) := by
      rw [hA1_cfg, hmB2]
    have := ensureDir_congr (configDir home) h0 (by rw [hA2]) (by rw [hB2])
    rw [hA2, hB2] at this
    exact this
  have hcong3 : subtree fsA3 (configDir home) = subtree fsB3 (configDir home) :=
    createConfigFiles_congr hcong2 hA3 hB3
  have hmain : subtree fs2 (configDir home) = subtree fs1 (configDir home) := by
    rw [hSB_cfg, ← hcong3, ← hSA_cfg]
  have hbakB2 : subtree fsB2 (backupDir home) = subtree fsB1 (backupDir home) := by
    have hnotcfg : ¬ backupDir home <+: configDir home := by
      have := not_backupDir_prefix_configDir_append home []
      simpa using this
    have := ensureDir_frame fsB1 hnotcfg
    rw [hB2] at this
    exact this
  have hbakB3 : subtree fsB3 (backupDir home) = subtree fsB2 (backupDir home) := by
    have := createConfigFiles_frame_backup ora home files fsB2
    rw [hB3] at this
    exact this
  have hbak2 : subtree fs2 (backupDir home) = subtree fs1 (configDir home) := by
    rw [hSB_bak, hbakB3, hbakB2, hmB1]
  refine ⟨hmain, hbak2, ?_, ?_⟩
  · intro f hf
    have hfileA3 : FS.lookup fsA3 (fullPath home f) = some (Node.file f.content) := by
      obtain ⟨fsw, hw, hu⟩ := createConfigFiles_none_split hA3
      have hlk := writeAll_none_lookup files fsA2 hw hdist f hf
      have h2' := ensureDir_lookup_some (configDir home ++ ["undo"]) fsw hlk
      rw [hu] at h2'
      exact h2'
    have hfile1 : FS.lookup fs1 (fullPath home f) = some (Node.file f.content) := by
      have hpre : configDir home <+: fullPath home f :=
        List.prefix_append (configDir home) (splitPath f.path)
      rw [lookup_congr_of_subtree hSA_cfg hpre]
      exact hfileA3
    have htr := lookup_transport hbak2 (splitPath f.path)
    rw [htr]
    exact hfile1
  · have hundoA3 := createConfigFiles_none_undo_dir hA3
    have hundo1 : FS.lookup fs1 (configDir home ++ ["undo"]) = some Node.dir := by
      have := lookup_congr_of_subtree hSA_cfg
        (List.prefix_append (configDir home) ["undo"])
      rw [this]
      exact hundoA3
    have htr := lookup_transport hbak2 ["undo"]
    rw [htr]
    exact hundo1

/-! ### Concrete witness inputs -/

/-- A concrete one-component home directory for witnesses. -/
def homeW : FPath := ["h"]

/-- A concrete working directory for witnesses. -/
def cwdW : FPath := ["w"]

/-- All three tool probes succeed. -/
def toolsOK : ToolEnv := ⟨⟨true, true⟩, ⟨true, true⟩, ⟨true, true⟩⟩

/-- The Neovim probe fails to launch. -/
def toolsNoNvim : ToolEnv := ⟨⟨false, false⟩, ⟨true, true⟩, ⟨true, true⟩⟩

/-- A write oracle under which every write succeeds. -/
def oraT : FPath → Bool := fun _ => true

/-- A write oracle that fails exactly on the file `b` under the target. -/
def oraFailB : FPath → Bool := fun p => !(p == ["h", ".config", "nvim", "b"])

/-- Concrete sample-project payload texts. -/
def stW : SampleTexts := ⟨"dj", "mt", "tt"⟩

/-- A one-entry configuration payload. -/
def filesW : List ConfigFile := [⟨"init.lua", "-- init", "Main Neovim configuration"⟩]

/-- An environment with a resolvable home directory. -/
def envW : Env := ⟨some ("/home/u"), none⟩

/-- A filesystem holding both a prior configuration and a prior backup. -/
def fsPrior : FS :=
  [(configDir homeW, Node.dir),
   (configDir homeW ++ ["a.txt"], Node.file ("x")),
   (backupDir homeW, Node.dir),
   (backupDir homeW ++ ["old.txt"], Node.file ("o"))]

/-- The state after one full run (no sample) of `filesW` from an empty
filesystem. -/
def fsRun1 : FS :=
  [(["h"], Node.dir), (["h", ".config"], Node.dir),
   (["h", ".config", "nvim"], Node.dir),
   (["h", ".config", "nvim", "init.lua"], Node.file ("-- init")),
   (["h", ".config", "nvim", "undo"], Node.dir)]

/-- The state after the second full run from `fsRun1`. -/
def fsRun2 : FS :=
  [(["h"], Node.dir), (["h", ".config"], Node.dir),
   (["h", ".config", "nvim.backup"], Node.dir),
   (["h", ".config", "nvim.backup", "init.lua"], Node.file ("-- init")),
   (["h", ".config", "nvim.backup", "undo"], Node.dir),
   (["h", ".config", "nvim"], Node.dir),
   (["h", ".config", "nvim", "init.lua"], Node.file ("-- init")),
   (["h", ".config", "nvim", "undo"], Node.dir)]

/-- The state after materializing the single entry `a` (before `undo`). -/
def fsC6Mid : FS :=
  [(["h"], Node.dir), (["h", ".config"], Node.dir),
   (["h", ".config", "nvim"], Node.dir),
   (["h", ".config", "nvim", "a"], Node.file ("x"))]

/-- The state after materializing the single entry `a` plus `undo`. -/
def fsC5Done : FS :=
  [(["h"], Node.dir), (["h", ".config"], Node.dir),
   (["h", ".config", "nvim"], Node.dir),
   (["h", ".config", "nvim", "a"], Node.file ("x")),
   (["h", ".config", "nvim", "undo"], Node.dir)]

/-- A filesystem with only a pre-existing backup, no target directory. -/
def fsBakOnly : FS :=
  [(backupDir homeW, Node.dir), (backupDir homeW ++ ["old"], Node.file ("o"))]

/-! ### Witnesses -/

/-- Witness for C1 at a filesystem holding both a prior configuration and
a prior backup. -/
theorem C1_backup_postcondition_witness :
    (existsPath fsPrior (backupDir homeW) = false →
      subtree fsPrior (backupDir homeW) = []) ∧
    (∃ fs2, backupExistingConfig homeW fsPrior = (fs2, none) ∧
      (existsPath fsPrior (configDir homeW) = true →
        subtree fs2 (backupDir homeW) = subtree fsPrior (configDir homeW) ∧
        existsPath fs2 (configDir homeW) = false ∧
        subtree fs2 (configDir homeW) = []) ∧
      (existsPath fsPrior (configDir homeW) = false → fs2 = fsPrior) ∧
      Xor' (existsPath fsPrior (configDir homeW) = false ∧ fs2 = fsPrior)
        (existsPath fsPrior (configDir homeW) = true ∧
          subtree fs2 (backupDir homeW) = subtree fsPrior (configDir homeW))) :=
  ⟨by decide, C1_backup_postcondition homeW fsPrior (by decide)⟩

/-- Witness for C2 at the same filesystem. -/
theorem C2_single_backup_generation_witness :
    existsPath fsPrior (configDir homeW) = true ∧
    existsPath fsPrior (backupDir homeW) = true ∧
    (∃ fs2, backupExistingConfig homeW fsPrior = (fs2, none) ∧
      subtree fs2 (backupDir homeW) = subtree fsPrior (configDir homeW) ∧
      ∀ en ∈ subtree fs2 (backupDir homeW),
        en ∈ subtree fsPrior (configDir homeW)) :=
  ⟨by decide, by decide,
   C2_single_backup_generation homeW fsPrior (by decide) (by decide)⟩

/-- Witness for C3: two successive runs from the empty filesystem. -/
theorem C3_idempotent_reinstall_witness :
    (existsPath ([] : FS) (configDir homeW) = true ∨
      subtree ([] : FS) (configDir homeW) = []) ∧
    NeovimSetup.run toolsOK oraT homeW cwdW filesW stW true [] = (fsRun1, none) ∧
    NeovimSetup.run toolsOK oraT homeW cwdW filesW stW true fsRun1 = (fsRun2, none) ∧
    (subtree fsRun2 (configDir homeW) = subtree fsRun1 (configDir homeW) ∧
     subtree fsRun2 (backupDir homeW) = subtree fsRun1 (configDir homeW) ∧
     (∀ f ∈ filesW, FS.lookup fsRun2 (backupDir homeW ++ splitPath f.path) =
       some (Node.file f.content)) ∧
     FS.lookup fsRun2 (backupDir homeW ++ ["undo"]) = some Node.dir) :=
  ⟨by decide, by decide, by decide,
   C3_idempotent_reinstall toolsOK oraT homeW cwdW filesW stW true [] fsRun1 fsRun2
     (by decide) (by decide) (by decide) (by decide) (by decide) (by decide)
     (by decide) (by decide)⟩

/-- Witness for C4: the Neovim probe fails, nothing on disk changes. -/
theorem C4_prerequisite_failure_no_mutation_witness :
    checkPrerequisites toolsNoNvim =
      some ("❌ Neovim is not installed or not in PATH") ∧
    resolveHome envW = some ("/home/u") ∧
    (mainFn envW toolsNoNvim oraT cwdW filesW stW [] fsPrior =
      (fsPrior, Outcome.caughtExit
        ("❌ Setup failed: " ++ "❌ Neovim is not installed or not in PATH")) ∧
     Outcome.exitCode (Outcome.caughtExit
        ("❌ Setup failed: " ++ "❌ Neovim is not installed or not in PATH")) = 1 ∧
     ((probeOk toolsNoNvim.nvim = false ∧
        ("❌ Neovim is not installed or not in PATH" : String) =
          "❌ Neovim is not installed or not in PATH") ∨
      (probeOk toolsNoNvim.nvim = true ∧ probeOk toolsNoNvim.deno = false ∧
        ("❌ Neovim is not installed or not in PATH" : String) =
          "❌ Deno is not installed or not in PATH") ∨
      (probeOk toolsNoNvim.nvim = true ∧ probeOk toolsNoNvim.deno = true ∧
        probeOk toolsNoNvim.git = false ∧
        ("❌ Neovim is not installed or not in PATH" : String) =
          "❌ Git is not installed or not in PATH"))) :=
  ⟨by decide, by decide,
   C4_prerequisite_failure_no_mutation envW toolsNoNvim oraT cwdW filesW stW [] fsPrior
     (by decide) (by decide) (by decide) (by decide)
     (show resolveHome envW = some ("/home/u") from by decide)⟩

/-- Witness for the amended C5 at a one-entry list. -/
theorem C5_materialization_fidelity_witness :
    ([⟨"a", "x", "d"⟩] : List ConfigFile).Pairwise
      (fun a b => fullPath homeW a ≠ fullPath homeW b) ∧
    createConfigFiles oraT homeW [⟨"a", "x", "d"⟩] [] = (fsC5Done, none) ∧
    (∀ f ∈ ([⟨"a", "x", "d"⟩] : List ConfigFile),
      FS.lookup fsC5Done (fullPath homeW f) = some (Node.file f.content) ∧
      ∀ q ∈ dirChain (fullPath homeW f).dropLast,
        FS.lookup fsC5Done q = some Node.dir) :=
  ⟨by decide, by decide,
   C5_materialization_fidelity oraT homeW [⟨"a", "x", "d"⟩] [] fsC5Done
     (by decide) (by decide)⟩

/-- Witness for C6: entry `a` succeeds, entry `b` hits an I/O failure. -/
theorem C6_failure_aborts_no_rollback_witness :
    writeAll oraFailB homeW [] [⟨"a", "x", "d1"⟩] = (fsC6Mid, none) ∧
    writeOne oraFailB homeW fsC6Mid ⟨"b", "y", "d2"⟩ =
      (fsC6Mid, some ("write: i/o error")) ∧
    (createConfigFiles oraFailB homeW
        ([⟨"a", "x", "d1"⟩] ++ (⟨"b", "y", "d2"⟩ : ConfigFile) :: []) [] =
      (fsC6Mid, some ("write: i/o error")) ∧
     (∀ p c, FS.lookup fsC6Mid p = some (Node.file c) →
       FS.lookup fsC6Mid p = some (Node.file c)) ∧
     (([⟨"a", "x", "d1"⟩] : List ConfigFile).Pairwise
        (fun a b => fullPath homeW a ≠ fullPath homeW b) →
      ∀ f ∈ ([⟨"a", "x", "d1"⟩] : List ConfigFile),
        FS.lookup fsC6Mid (fullPath homeW f) = some (Node.file f.content))) :=
  ⟨by decide, by decide,
   C6_failure_aborts_no_rollback oraFailB homeW [⟨"a", "x", "d1"⟩]
     ⟨"b", "y", "d2"⟩ [] [] fsC6Mid fsC6Mid ("write: i/o error")
     (by decide) (by decide)⟩

/-- Witness for the amended C7 at a plain invocation with an
unresolvable environment. -/
theorem C7_error_propagation_witness :
    ([] : List String).contains ("--help") = false ∧
    ([] : List String).contains ("-h") = false ∧
    ([] : List String).contains ("--dry-run") = false ∧
    ((∀ homeStr fs1 e, resolveHome ⟨none, none⟩ = some homeStr →
      NeovimSetup.run toolsOK oraT (splitPath homeStr) cwdW filesW stW
        (([] : List String).contains ("--no-sample")) [] = (fs1, some e) →
      mainFn ⟨none, none⟩ toolsOK oraT cwdW filesW stW [] [] =
        (fs1, Outcome.caughtExit ("❌ Setup failed: " ++ e)) ∧
      Outcome.exitCode (Outcome.caughtExit ("❌ Setup failed: " ++ e)) = 1) ∧
    (resolveHome ⟨none, none⟩ = none →
      mainFn ⟨none, none⟩ toolsOK oraT cwdW filesW stW [] [] =
        ([], Outcome.uncaught ("Could not determine home directory")) ∧
      Outcome.isCaughtExit
        (Outcome.uncaught ("Could not determine home directory")) = false ∧
      Outcome.exitCode
        (Outcome.uncaught ("Could not determine home directory")) = 1)) :=
  ⟨by decide, by decide, by decide,
   C7_error_propagation ⟨none, none⟩ toolsOK oraT cwdW filesW stW [] []
     (by decide) (by decide) (by decide)⟩

/-- Witness for C8 on `--help` and on `--dry-run` invocations. -/
theorem C8_help_dry_run_pure_witness :
    (mainFn envW toolsOK oraT cwdW filesW stW ["--help"] fsPrior =
      (fsPrior, Outcome.helpExit) ∧
     Outcome.exitCode Outcome.helpExit = 0) ∧
    (mainFn envW toolsOK oraT cwdW filesW stW ["--dry-run"] fsPrior =
      (fsPrior, Outcome.dryRunExit) ∧
     Outcome.exitCode Outcome.dryRunExit = 0) :=
  ⟨(C8_help_dry_run_pure envW toolsOK oraT cwdW filesW stW ["--help"] fsPrior).1
     (Or.inl (by decide)),
   (C8_help_dry_run_pure envW toolsOK oraT cwdW filesW stW ["--dry-run"] fsPrior).2
     (by decide) (by decide) (by decide)⟩

/-- Witness for C9: a run over a filesystem holding only an old backup. -/
theorem C9_no_backup_touched_witness :
    existsPath fsBakOnly (configDir homeW) = false ∧
    (subtree (NeovimSetup.run toolsOK oraT homeW cwdW filesW stW true fsBakOnly).1
        (backupDir homeW) = subtree fsBakOnly (backupDir homeW) ∧
     existsPath (NeovimSetup.run toolsOK oraT homeW cwdW filesW stW true fsBakOnly).1
        (backupDir homeW) = existsPath fsBakOnly (backupDir homeW)) :=
  ⟨by decide,
   C9_no_backup_touched toolsOK oraT homeW cwdW filesW stW true fsBakOnly
     (by decide) (by decide) (by decide)⟩

/-- Witness for C10: both flags present, help wins, even with no
resolvable home directory. -/
theorem C10_help_precedence_witness :
    ((["--help", "--dry-run"] : List String).contains ("--help") = true ∨
      (["--help", "--dry-run"] : List String).contains ("-h") = true) ∧
    (["--help", "--dry-run"] : List String).contains ("--dry-run") = true ∧
    (mainFn ⟨none, none⟩ toolsOK oraT cwdW filesW stW ["--help", "--dry-run"] [] =
      ([], Outcome.helpExit) ∧
     Outcome.helpExit ≠ Outcome.dryRunExit ∧
     Outcome.exitCode Outcome.helpExit = 0) :=
  ⟨by decide, by decide,
   C10_help_precedence ⟨none, none⟩ toolsOK oraT cwdW filesW stW
     ["--help", "--dry-run"] [] (by decide) (by decide)⟩
